import Mathlib

set_option maxRecDepth 40000

/-!
Verification of the DQSN (DigiByte Quantum Shield Network) Shield Contract v3
aggregation layer against its natural-language specification.

The Python sources embedded here are:
  * `src/dqsnetwork/v3.py`                      (class `DQSNV3`)
  * `src/dqsnetwork/contracts/v3_types.py`      (`DQSNV3Request.from_dict`,
                                                 `_walk_check_finite`, `_is_finite_number`)
  * `src/dqsnetwork/contracts/v3_reason_codes.py` (`ReasonCode`)
  * `src/dqsnetwork/contracts/v3_hash.py`       (`canonical_sha256`)

Python values are modelled by the inductive type `PyVal` (JSON-like values plus
booleans and `None`).  Python floats are modelled as either a finite rational or
one of the non-finite values NaN / +Inf / -Inf.  Machine floating point rounding
is not modelled: every finite float is carried exactly, which is faithful for the
decimal literals exercised by the contract (`0.0`, `0.5`, `1.0`, ...).

Modelling notes (deliberate, documented narrowings, each harmless for the
claims proved below):
  * Python string `strip` is modelled by `String.trim` (ASCII whitespace);
    `upper` by `String.toUpper` (ASCII case map).
  * Dictionary keys are arbitrary `PyVal`s compared structurally.  Python's
    cross-type `==` coincides with structural equality on every comparison the
    embedded code performs (all lookups use plain ASCII string keys).
  * `json.dumps(..., sort_keys=True)` is modelled to fail (Python `TypeError`)
    whenever a dictionary has a non-string key; CPython would coerce such keys
    and only fail on unorderable mixtures.  All dictionaries reaching the
    serializer in the claims below use string keys only, and the narrowed
    failure still lands in the same fail-closed branch of the caller.
  * `repr` of a finite float is modelled as its exact decimal expansion when
    one exists (CPython prints the shortest round-tripping decimal, which
    agrees on all exactly-representable decimals used by the contract).
  * `float(n)` for an integer `n` raises `OverflowError` in CPython when `n`
    rounds beyond the largest double; the exact threshold `2^1024 - 2^970` is
    modelled (`intFloatOverflows`).
-/

namespace DQSN

/-- Exact rational carried by a finite Python float.  The denominator is
positive in every value the embedding builds; comparisons cross-multiply.
(Lean's `Rat` normalisation does not reduce in the kernel, so a raw pair is
used instead; the embedded code never adds or divides floats, it only
compares them and prints them.) -/
structure PyRat where
  num : Int
  den : Nat
deriving DecidableEq

/-- Model of a Python float: a finite rational, or NaN / +Infinity / -Infinity. -/
inductive PyFloat where
  | finite (q : PyRat)
  | nan
  | inf
  | ninf
deriving DecidableEq

/-- Model of a Python value as handled by the DQSN v3 code: `None`, booleans,
integers, floats, strings, lists and (insertion-ordered) dictionaries. -/
inductive PyVal where
  | none
  | bool (b : Bool)
  | int (n : Int)
  | float (f : PyFloat)
  | str (s : String)
  | list (xs : List PyVal)
  | dict (kvs : List (PyVal × PyVal))

/-- Python exceptions that the embedded code can raise or catch. -/
inductive PyErr where
  | valueError (code : String)
  | typeError
  | overflowError
  | attributeError
deriving DecidableEq

/-- First value bound to string key `k` in a dict's entry list (Python
`d.get(k)` restricted to string keys, the only kind the embedded code looks
up; a non-string dict key is never `==` to an ASCII string in Python). -/
def getKV (kvs : List (PyVal × PyVal)) (k : String) : Option PyVal :=
  match kvs with
  | [] => Option.none
  | (key, v) :: rest =>
    match key with
    | .str s => if s = k then some v else getKV rest k
    | _ => getKV rest k

/-- Python `d.get(k, default)` on a dict value (default on non-dicts, which the
embedded code guards with `isinstance` checks before calling `get`). -/
def PyVal.getD (v : PyVal) (k : String) (dflt : PyVal) : PyVal :=
  match v with
  | .dict kvs => (getKV kvs k).getD dflt
  | _ => dflt

/-- Field lookup used to state properties about response envelopes. -/
def PyVal.getStr (v : PyVal) (k : String) : Option PyVal :=
  match v with
  | .dict kvs => getKV kvs k
  | _ => Option.none

/-- Python `len` (`TypeError` on objects without a length). -/
def pyLen (v : PyVal) : Except PyErr Nat :=
  match v with
  | .str s => .ok s.length
  | .list xs => .ok xs.length
  | .dict kvs => .ok kvs.length
  | _ => .error .typeError

/-- `2^1024 - 2^970` as a literal (kept evaluated so that elaborator-side
reduction never re-expands the power). -/
def FLOAT_OVERFLOW_BOUND : Nat :=
  179769313486231580793728971405303415079934132710037826936173778980444968292764750946649017977587207096330286416692887910946555547851940402630657488671505820681908902000708383676273854845817711531764475730270069855571366959622842914819860834936475292719074168444365510704342711559699508093042880177904174497792

/-- `float(n)` overflows for `|n| ≥ 2^1024 - 2^970` (nearest-even rounding
carries such integers past the largest finite double). -/
def intFloatOverflows (n : Int) : Bool :=
  decide (FLOAT_OVERFLOW_BOUND ≤ n.natAbs)

/-- `a < b` by cross multiplication (denominators positive by construction). -/
def PyRat.lt (a b : PyRat) : Bool :=
  decide (a.num * (b.den : Int) < b.num * (a.den : Int))

/-- Python character classed as whitespace by `str.strip` (ASCII subset). -/
def pyIsSpace (c : Char) : Bool :=
  c = ' ' || c = '\t' || c = '\n' || c = '\x0d' || c = '\x0b' || c = '\x0c'

/-- Python `str.strip()` (ASCII whitespace). -/
def pyTrim (s : String) : String :=
  String.mk (((s.data.dropWhile pyIsSpace).reverse.dropWhile pyIsSpace).reverse)

/-- Python `str.upper()` (ASCII case map; the contract fields are ASCII). -/
def pyUpper (s : String) : String :=
  String.mk (s.data.map (fun c =>
    if 'a' ≤ c && c ≤ 'z' then Char.ofNat (c.toNat - 32) else c))

/-- Code-point lexicographic `≤` on char lists (Python string comparison). -/
def charListLe : List Char → List Char → Bool
  | [], _ => true
  | _ :: _, [] => false
  | a :: as, b :: bs =>
    if a.val < b.val then true
    else if b.val < a.val then false
    else charListLe as bs

/-- Python `s1 <= s2` (code-point lexicographic). -/
def pyStrLe (a b : String) : Bool := charListLe a.data b.data

/-- Stable insertion into an ascending list: an element goes before the first
element it is `le`-related to, hence before later-inserted equals. -/
def ordIns (le : α → α → Bool) (a : α) : List α → List α
  | [] => [a]
  | b :: l => if le a b then a :: b :: l else b :: ordIns le a l

/-- Stable ascending sort (extensionally equal to Python's stable `sort`
for a total preorder `le`). -/
def stableSort (le : α → α → Bool) : List α → List α
  | [] => []
  | a :: l => ordIns le a (stableSort le l)

/-- UTF-8 encoding of one code point. -/
def utf8Bytes (c : Char) : List Nat :=
  let v := c.toNat
  if v < 0x80 then [v]
  else if v < 0x800 then [0xc0 + v / 0x40, 0x80 + v % 0x40]
  else if v < 0x10000 then
    [0xe0 + v / 0x1000, 0x80 + v / 0x40 % 0x40, 0x80 + v % 0x40]
  else
    [0xf0 + v / 0x40000, 0x80 + v / 0x1000 % 0x40, 0x80 + v / 0x40 % 0x40,
     0x80 + v % 0x40]

/-- UTF-8 bytes of a string (`s.encode("utf-8")`). -/
def strUtf8 (s : String) : List Nat := s.data.flatMap utf8Bytes

/-- Tail-recursive byte counter (kernel-stack friendly on long strings). -/
def utf8LenGo : List Char → Nat → Nat
  | [], acc => acc
  | c :: cs, acc => utf8LenGo cs (acc + (utf8Bytes c).length)

/-- `len(s.encode("utf-8"))`. -/
def utf8Len (s : String) : Nat := utf8LenGo s.data 0

/-- Right-nested separator join, extensionally Python's `sep.join` /
`String.intercalate` but with small left operands at every append (the
kernel reduces `++` by recursion on the left operand). -/
def joinStrings (sep : String) : List String → String
  | [] => ""
  | [x] => x
  | x :: y :: xs => x ++ (sep ++ joinStrings sep (y :: xs))

/-- Decimal digits of `n` (kernel-computable `toString`). -/
def natDecimal (n : Nat) : String := toString n

/-- Python `repr` of a finite positive rational with an exact decimal
expansion of at most `k` fractional digits: search for the shortest one.
Returns `Option.none` if none exists within the bound. -/
def decFracDigits (rem d : Nat) : Nat → Option (Nat × Nat)
  | 0 => Option.none
  | fuel + 1 =>
    let k := 61 - (fuel + 1)
    if rem * 10 ^ k % d = 0 then some (k, rem * 10 ^ k / d)
    else decFracDigits rem d fuel

/-- `repr` of a finite float value (CPython prints the shortest decimal that
round-trips; on the exactly-representable decimals used by the contract this
is the exact expansion produced here).  Rationals without a short decimal
expansion (never produced by the contract paths under verification) fall back
to a fixed 17-digit truncation. -/
def decimalRepr (q : PyRat) : String :=
  let sign := if q.num < 0 then "-" else ""
  let n := q.num.natAbs
  let d := q.den
  let ip := n / d
  let rem := n % d
  if rem = 0 then sign ++ natDecimal ip ++ ".0"
  else
    match decFracDigits rem d 60 with
    | some (k, digits) =>
      let ds := natDecimal digits
      let pad := String.mk (List.replicate (k - ds.length) '0')
      sign ++ natDecimal ip ++ "." ++ pad ++ ds
    | Option.none =>
      let ds := natDecimal (rem * 10 ^ 17 / d)
      let pad := String.mk (List.replicate (17 - ds.length) '0')
      sign ++ natDecimal ip ++ "." ++ pad ++ ds

/-- Python `repr`/`str` of a float (`str(float)` equals `repr(float)`). -/
def floatRepr : PyFloat → String
  | .finite q => decimalRepr q
  | .nan => "nan"
  | .inf => "inf"
  | .ninf => "-inf"

/-- `v3_types._is_finite_number`: booleans are deliberately not numbers; an
int or float is checked with `math.isfinite(float(x))`; everything else is
left to structural validation.  `float(x)` of a huge int raises. -/
def isFiniteNumber (x : PyVal) : Except PyErr Bool :=
  match x with
  | .bool _ => .ok true
  | .int n => if intFloatOverflows n then .error .overflowError else .ok true
  | .float (.finite _) => .ok true
  | .float _ => .ok false
  | _ => .ok true

/-- Python `repr` of a string: single quotes unless the string contains a
single quote and no double quote; backslash, quote and the common control
characters are escaped. -/
def pyStrQuote (s : String) : String :=
  let q : Char := if s.data.contains '\'' && !(s.data.contains '"') then '"' else '\''
  let esc : Char → String := fun c =>
    if c = '\\' then "\\\\"
    else if c = q then "\\" ++ String.mk [q]
    else if c = '\n' then "\\n"
    else if c = '\x0d' then "\\r"
    else if c = '\t' then "\\t"
    else String.mk [c]
  String.mk [q] ++ String.join (s.data.map esc) ++ String.mk [q]

mutual

/-- Python `repr` of a value (used by `str` for containers). -/
def pyRepr : PyVal → String
  | .none => "None"
  | .bool b => if b then "True" else "False"
  | .int n => toString n
  | .float f => floatRepr f
  | .str s => pyStrQuote s
  | .list xs => "[" ++ pyReprList xs ++ "]"
  | .dict kvs => "\x7b" ++ pyReprKVs kvs ++ "\x7d"

/-- Comma-separated `repr` of list elements. -/
def pyReprList : List PyVal → String
  | [] => ""
  | [x] => pyRepr x
  | x :: y :: xs => pyRepr x ++ ", " ++ pyReprList (y :: xs)

/-- Comma-separated `repr` of dict entries. -/
def pyReprKVs : List (PyVal × PyVal) → String
  | [] => ""
  | [(k, v)] => pyRepr k ++ ": " ++ pyRepr v
  | (k, v) :: e :: xs => pyRepr k ++ ": " ++ pyRepr v ++ ", " ++ pyReprKVs (e :: xs)

end

/-- Python `str(x)` (identity on strings, `repr` otherwise; `str` and `repr`
agree on every non-string value the embedded code converts). -/
def pyStr : PyVal → String
  | .str s => s
  | v => pyRepr v

/-- JSON string escaping as emitted by `json.dumps(..., ensure_ascii=False)`:
`"` and `\` escaped, control characters as `\n`/`\r`/`\t`/`\b`/`\f` or
`\u00XX`, everything else emitted literally. -/
def jsonEscape (c : Char) : String :=
  if c = '"' then "\\\""
  else if c = '\\' then "\\\\"
  else if c = '\n' then "\\n"
  else if c = '\x0d' then "\\r"
  else if c = '\t' then "\\t"
  else if c = '\x08' then "\\b"
  else if c = '\x0c' then "\\f"
  else if c.toNat < 0x20 then
    let hex : Nat → Char := fun d => if d < 10 then Char.ofNat (48 + d) else Char.ofNat (87 + d)
    "\\u00" ++ String.mk [hex (c.toNat / 16), hex (c.toNat % 16)]
  else String.mk [c]

/-- JSON rendering of a string literal. -/
def jsonQuote (s : String) : String :=
  "\"" ++ String.join (s.data.map jsonEscape) ++ "\""

/-- JSON rendering of a float by `json.dumps` (which uses `float.__repr__`,
and the literals `NaN`/`Infinity`/`-Infinity` since `allow_nan` defaults to
true). -/
def jsonFloat : PyFloat → String
  | .finite q => decimalRepr q
  | .nan => "NaN"
  | .inf => "Infinity"
  | .ninf => "-Infinity"

mutual

/-- `json.dumps(v, sort_keys=True, separators=(",", ":"), ensure_ascii=False)`.
Fails (modelled `TypeError`) on a dict with a non-string key; see the header
note — every dict serialized on the verified paths has string keys. -/
def canonicalJson : PyVal → Except Unit String
  | .none => .ok "null"
  | .bool b => .ok (if b then "true" else "false")
  | .int n => .ok (toString n)
  | .float f => .ok (jsonFloat f)
  | .str s => .ok (jsonQuote s)
  | .list xs => do
    let parts ← canonicalJsonList xs
    .ok ("[" ++ joinStrings "," parts ++ "]")
  | .dict kvs => do
    let parts ← canonicalJsonKVs kvs
    let sorted := stableSort (fun p q => pyStrLe p.1 q.1) parts
    .ok ("\x7b" ++ joinStrings "," (sorted.map (fun p => jsonQuote p.1 ++ ":" ++ p.2)) ++ "\x7d")

/-- Serialize the elements of a list. -/
def canonicalJsonList : List PyVal → Except Unit (List String)
  | [] => .ok []
  | x :: xs => do
    let s ← canonicalJson x
    let rest ← canonicalJsonList xs
    .ok (s :: rest)

/-- Serialize dict entries to (raw key, rendered value) pairs. -/
def canonicalJsonKVs : List (PyVal × PyVal) → Except Unit (List (String × String))
  | [] => .ok []
  | (k, v) :: rest =>
    match k with
    | .str s => do
      let vs ← canonicalJson v
      let tail ← canonicalJsonKVs rest
      .ok ((s, vs) :: tail)
    | _ => .error ()

end

/-! ### SHA-256 (`hashlib.sha256(...).hexdigest()`) -/

/-- 2^32, the word modulus of SHA-256. -/
def M32 : Nat := 2 ^ 32

/-- Right rotation of a 32-bit word. -/
def rotr32 (x n : Nat) : Nat := (x / 2 ^ n + x % 2 ^ n * 2 ^ (32 - n)) % M32

/-- SHA-256 round constants. -/
def sha256K : List Nat :=
  [1116352408, 1899447441, 3049323471, 3921009573,
   961987163, 1508970993, 2453635748, 2870763221,
   3624381080, 310598401, 607225278, 1426881987,
   1925078388, 2162078206, 2614888103, 3248222580,
   3835390401, 4022224774, 264347078, 604807628,
   770255983, 1249150122, 1555081692, 1996064986,
   2554220882, 2821834349, 2952996808, 3210313671,
   3336571891, 3584528711, 113926993, 338241895,
   666307205, 773529912, 1294757372, 1396182291,
   1695183700, 1986661051, 2177026350, 2456956037,
   2730485921, 2820302411, 3259730800, 3345764771,
   3516065817, 3600352804, 4094571909, 275423344,
   430227734, 506948616, 659060556, 883997877,
   958139571, 1322822218, 1537002063, 1747873779,
   1955562222, 2024104815, 2227730452, 2361852424,
   2428436474, 2756734187, 3204031479, 3329325298]

/-- SHA-256 initial hash state. -/
def sha256InitH : List Nat :=
  [1779033703, 3144134277, 1013904242, 2773480762,
   1359893119, 2600822924, 528734635, 1541459225]

/-- Big-endian byte rendering of `v` over `n` bytes. -/
def beBytes (v n : Nat) : List Nat :=
  (List.range n).map (fun i => v / 2 ^ (8 * (n - 1 - i)) % 256)

/-- SHA-256 padding: `0x80`, zeros to 56 mod 64, then the bit length. -/
def shaPad (msg : List Nat) : List Nat :=
  let L := msg.length
  let k := (119 - L % 64) % 64
  msg ++ [0x80] ++ List.replicate k 0 ++ beBytes (8 * L) 8

/-- Split a byte list into 64-byte blocks; the fuel (initialised to the list
length, which bounds the block count) keeps the recursion structural so that
the kernel can evaluate it.  The fuel never runs out on a nonempty list. -/
def chunks64Go : List Nat → Nat → List (List Nat)
  | [], _ => []
  | _ :: _, 0 => []
  | x :: rest, fuel + 1 => ((x :: rest).take 64) :: chunks64Go ((x :: rest).drop 64) fuel

/-- Split a byte list into 64-byte blocks. -/
def chunks64 (l : List Nat) : List (List Nat) := chunks64Go l l.length

/-- One SHA-256 compression round over the running state. -/
def sha256Round (st : Nat × Nat × Nat × Nat × Nat × Nat × Nat × Nat)
    (kw : Nat × Nat) : Nat × Nat × Nat × Nat × Nat × Nat × Nat × Nat :=
  let (a, b, c, d, e, f, g, h) := st
  let S1 := (rotr32 e 6) ^^^ (rotr32 e 11) ^^^ (rotr32 e 25)
  let ch := (e &&& f) ^^^ ((M32 - 1 - e) &&& g)
  let t1 := (h + S1 + ch + kw.1 + kw.2) % M32
  let S0 := (rotr32 a 2) ^^^ (rotr32 a 13) ^^^ (rotr32 a 22)
  let mj := (a &&& b) ^^^ (a &&& c) ^^^ (b &&& c)
  let t2 := (S0 + mj) % M32
  ((t1 + t2) % M32, a, b, c, (d + t1) % M32, e, f, g)

/-- SHA-256 compression of a 64-byte block into the hash state. -/
def sha256Compress (H : List Nat) (block : List Nat) : List Nat :=
  let w0 := (List.range 16).map (fun i =>
    ((block.drop (4 * i)).take 4).foldl (fun a b => a * 256 + b) 0)
  let w := (List.range 48).foldl (fun w _ =>
    let i := w.length
    let w15 := w.getD (i - 15) 0
    let w2 := w.getD (i - 2) 0
    let s0 := (rotr32 w15 7) ^^^ (rotr32 w15 18) ^^^ (w15 / 2 ^ 3)
    let s1 := (rotr32 w2 17) ^^^ (rotr32 w2 19) ^^^ (w2 / 2 ^ 10)
    w ++ [(w.getD (i - 16) 0 + s0 + w.getD (i - 7) 0 + s1) % M32]) w0
  let init := (H.getD 0 0, H.getD 1 0, H.getD 2 0, H.getD 3 0,
               H.getD 4 0, H.getD 5 0, H.getD 6 0, H.getD 7 0)
  let (a, b, c, d, e, f, g, h) := (sha256K.zip w).foldl sha256Round init
  [(H.getD 0 0 + a) % M32, (H.getD 1 0 + b) % M32, (H.getD 2 0 + c) % M32,
   (H.getD 3 0 + d) % M32, (H.getD 4 0 + e) % M32, (H.getD 5 0 + f) % M32,
   (H.getD 6 0 + g) % M32, (H.getD 7 0 + h) % M32]

/-- Lowercase hex digit. -/
def hexDigit (d : Nat) : Char :=
  if d < 10 then Char.ofNat (48 + d) else Char.ofNat (87 + d)

/-- Lowercase 8-hex-digit rendering of a 32-bit word. -/
def hexWord (w : Nat) : String :=
  String.mk ((List.range 8).map (fun i => hexDigit (w / 16 ^ (7 - i) % 16)))

/-- `hashlib.sha256(s.encode("utf-8")).hexdigest()`. -/
def sha256Hex (s : String) : String :=
  let H := (chunks64 (shaPad (strUtf8 s))).foldl sha256Compress sha256InitH
  String.join (H.map hexWord)

/-- `v3_hash.canonical_sha256`: SHA-256 of the canonical JSON form.  A
serialization `TypeError` propagates out in Python; every payload hashed on
the verified paths is built from string-keyed dicts of contract fields and
serializes, so the error branch returns a fixed string that no theorem relies
on. -/
def canonical_sha256 (payload : PyVal) : String :=
  match canonicalJson payload with
  | .ok s => sha256Hex s
  | .error _ => ""

/-! ### Decidable equality for `PyVal` -/

mutual

/-- Structural boolean equality on `PyVal`. -/
def pyValBeq : PyVal → PyVal → Bool
  | .none, .none => true
  | .bool a, .bool b => a == b
  | .int a, .int b => a == b
  | .float a, .float b => a == b
  | .str a, .str b => a == b
  | .list xs, .list ys => pyValBeqList xs ys
  | .dict xs, .dict ys => pyValBeqKVs xs ys
  | _, _ => false

/-- Structural boolean equality on lists of `PyVal`. -/
def pyValBeqList : List PyVal → List PyVal → Bool
  | [], [] => true
  | x :: xs, y :: ys => pyValBeq x y && pyValBeqList xs ys
  | _, _ => false

/-- Structural boolean equality on dict entry lists. -/
def pyValBeqKVs : List (PyVal × PyVal) → List (PyVal × PyVal) → Bool
  | [], [] => true
  | (k1, v1) :: xs, (k2, v2) :: ys =>
    pyValBeq k1 k2 && pyValBeq v1 v2 && pyValBeqKVs xs ys
  | _, _ => false

end

mutual

theorem pyValBeq_rfl : (a : PyVal) → pyValBeq a a = true
  | .none => by simp [pyValBeq]
  | .bool _ => by simp [pyValBeq]
  | .int _ => by simp [pyValBeq]
  | .float _ => by simp [pyValBeq]
  | .str _ => by simp [pyValBeq]
  | .list xs => by simp [pyValBeq, pyValBeqList_rfl xs]
  | .dict kvs => by simp [pyValBeq, pyValBeqKVs_rfl kvs]

theorem pyValBeqList_rfl : (xs : List PyVal) → pyValBeqList xs xs = true
  | [] => by simp [pyValBeqList]
  | x :: xs => by simp [pyValBeqList, pyValBeq_rfl x, pyValBeqList_rfl xs]

theorem pyValBeqKVs_rfl : (xs : List (PyVal × PyVal)) → pyValBeqKVs xs xs = true
  | [] => by simp [pyValBeqKVs]
  | (k, v) :: xs => by
    simp [pyValBeqKVs, pyValBeq_rfl k, pyValBeq_rfl v, pyValBeqKVs_rfl xs]

end

mutual

theorem pyValBeq_sound : (a b : PyVal) → pyValBeq a b = true → a = b
  | .none, b => by cases b <;> simp [pyValBeq]
  | .bool _, b => by cases b <;> simp [pyValBeq]
  | .int _, b => by cases b <;> simp [pyValBeq]
  | .float _, b => by cases b <;> simp [pyValBeq]
  | .str _, b => by cases b <;> simp [pyValBeq]
  | .list xs, .list ys => by
    intro h
    simp only [pyValBeq] at h
    simp [pyValBeqList_sound xs ys h]
  | .list _, .none => by simp [pyValBeq]
  | .list _, .bool _ => by simp [pyValBeq]
  | .list _, .int _ => by simp [pyValBeq]
  | .list _, .float _ => by simp [pyValBeq]
  | .list _, .str _ => by simp [pyValBeq]
  | .list _, .dict _ => by simp [pyValBeq]
  | .dict xs, .dict ys => by
    intro h
    simp only [pyValBeq] at h
    simp [pyValBeqKVs_sound xs ys h]
  | .dict _, .none => by simp [pyValBeq]
  | .dict _, .bool _ => by simp [pyValBeq]
  | .dict _, .int _ => by simp [pyValBeq]
  | .dict _, .float _ => by simp [pyValBeq]
  | .dict _, .str _ => by simp [pyValBeq]
  | .dict _, .list _ => by simp [pyValBeq]

theorem pyValBeqList_sound : (xs ys : List PyVal) → pyValBeqList xs ys = true → xs = ys
  | [], [] => by simp
  | [], _ :: _ => by simp [pyValBeqList]
  | _ :: _, [] => by simp [pyValBeqList]
  | x :: xs, y :: ys => by
    intro h
    simp only [pyValBeqList, Bool.and_eq_true] at h
    simp [pyValBeq_sound x y h.1, pyValBeqList_sound xs ys h.2]

theorem pyValBeqKVs_sound : (xs ys : List (PyVal × PyVal)) → pyValBeqKVs xs ys = true → xs = ys
  | [], [] => by simp
  | [], _ :: _ => by simp [pyValBeqKVs]
  | _ :: _, [] => by simp [pyValBeqKVs]
  | (k1, v1) :: xs, (k2, v2) :: ys => by
    intro h
    simp only [pyValBeqKVs, Bool.and_eq_true] at h
    simp [pyValBeq_sound k1 k2 h.1.1, pyValBeq_sound v1 v2 h.1.2,
      pyValBeqKVs_sound xs ys h.2]

end

instance : DecidableEq PyVal := fun a b =>
  if h : pyValBeq a b = true then .isTrue (pyValBeq_sound a b h)
  else .isFalse (fun he => h (he ▸ pyValBeq_rfl a))

instance {ε α : Type} [DecidableEq ε] [DecidableEq α] : DecidableEq (Except ε α) :=
  fun a b =>
    match a, b with
    | .ok x, .ok y => if h : x = y then .isTrue (by rw [h]) else
        .isFalse (fun he => h (by cases he; rfl))
    | .error x, .error y => if h : x = y then .isTrue (by rw [h]) else
        .isFalse (fun he => h (by cases he; rfl))
    | .ok _, .error _ => .isFalse (fun he => by cases he)
    | .error _, .ok _ => .isFalse (fun he => by cases he)

/-! ### Reason codes (`v3_reason_codes.ReasonCode`, string values) -/

/-- `ReasonCode.DQSN_OK_ALLOW.value`. -/
def RC_OK_ALLOW : String := "DQSN_OK_ALLOW"

/-- `ReasonCode.DQSN_ESCALATE_WARN.value`. -/
def RC_ESCALATE_WARN : String := "DQSN_ESCALATE_WARN"

/-- `ReasonCode.DQSN_DENY_BLOCK.value`. -/
def RC_DENY_BLOCK : String := "DQSN_DENY_BLOCK"

/-- `ReasonCode.DQSN_ERROR_SCHEMA_VERSION.value`. -/
def RC_SCHEMA_VERSION : String := "DQSN_ERROR_SCHEMA_VERSION"

/-- `ReasonCode.DQSN_ERROR_INVALID_REQUEST.value`. -/
def RC_INVALID_REQUEST : String := "DQSN_ERROR_INVALID_REQUEST"

/-- `ReasonCode.DQSN_ERROR_UNKNOWN_TOP_LEVEL_KEY.value`. -/
def RC_UNKNOWN_TOP_LEVEL_KEY : String := "DQSN_ERROR_UNKNOWN_TOP_LEVEL_KEY"

/-- `ReasonCode.DQSN_ERROR_BAD_NUMBER.value`. -/
def RC_BAD_NUMBER : String := "DQSN_ERROR_BAD_NUMBER"

/-- `ReasonCode.DQSN_ERROR_PAYLOAD_TOO_LARGE.value`. -/
def RC_PAYLOAD_TOO_LARGE : String := "DQSN_ERROR_PAYLOAD_TOO_LARGE"

/-- `ReasonCode.DQSN_ERROR_SIGNAL_TOO_MANY.value`. -/
def RC_SIGNAL_TOO_MANY : String := "DQSN_ERROR_SIGNAL_TOO_MANY"

/-- `ReasonCode.DQSN_ERROR_SIGNAL_INVALID.value`. -/
def RC_SIGNAL_INVALID : String := "DQSN_ERROR_SIGNAL_INVALID"

/-! ### Whole-tree numeric hygiene (`v3_types._walk_check_finite`) -/

/-- One dict scan of `_walk_check_finite`'s main loop: check every key and
value with `_is_finite_number` (`ok Option.none` when one is non-finite),
collecting the items pushed on the stack in Python append order. -/
def scanKVs : List (PyVal × PyVal) → Except PyErr (Option (List PyVal))
  | [] => .ok (some [])
  | (k, v) :: rest => do
    let fk ← isFiniteNumber k
    if !fk then pure Option.none
    else do
      let fv ← isFiniteNumber v
      if !fv then pure Option.none
      else do
        let tail ← scanKVs rest
        pure (tail.map (fun l => k :: v :: l))

/-- One list scan of `_walk_check_finite`'s main loop. -/
def scanList : List PyVal → Except PyErr (Option (List PyVal))
  | [] => .ok (some [])
  | v :: rest => do
    let fv ← isFiniteNumber v
    if !fv then pure Option.none
    else do
      let tail ← scanList rest
      pure (tail.map (fun l => v :: l))

/-- The iterative stack loop of `_walk_check_finite`.  The Lean list head is
the Python stack top; newly pushed items therefore enter reversed at the
front.  `fuel` is the remaining node budget `max_nodes - seen`: Python stops
with `PAYLOAD_TOO_LARGE` exactly when `seen` would exceed `max_nodes`,
i.e. when the budget hits zero, which keeps this recursion structural. -/
def walkLoop : List PyVal → Nat → Except PyErr (Option String)
  | [], _ => .ok Option.none
  | _ :: _, 0 => .ok (some RC_PAYLOAD_TOO_LARGE)
  | cur :: rest, fuel + 1 =>
    match cur with
    | .dict kvs =>
      match scanKVs kvs with
      | .error e => .error e
      | .ok Option.none => .ok (some RC_BAD_NUMBER)
      | .ok (some pushed) => walkLoop (pushed.reverse ++ rest) fuel
    | .list xs =>
      match scanList xs with
      | .error e => .error e
      | .ok Option.none => .ok (some RC_BAD_NUMBER)
      | .ok (some pushed) => walkLoop (pushed.reverse ++ rest) fuel
    | leaf =>
      match isFiniteNumber leaf with
      | .error e => .error e
      | .ok false => .ok (some RC_BAD_NUMBER)
      | .ok true => walkLoop rest fuel

/-- `v3_types._walk_check_finite(obj, max_nodes)`. -/
def walkCheckFinite (obj : PyVal) (maxNodes : Nat) : Except PyErr (Option String) :=
  walkLoop [obj] maxNodes

/-! ### Typed request (`v3_types.DQSNV3Request`) -/

/-- `v3_types.DQSNV3Constraints`. -/
structure DQSNV3Constraints where
  fail_closed : Bool
  max_latency_ms : Int
deriving DecidableEq

/-- `v3_types.DQSNV3Request` (the parsed, validated request). -/
structure DQSNV3Request where
  contract_version : Int
  component : String
  request_id : String
  signals : List PyVal
  constraints : DQSNV3Constraints
deriving DecidableEq

/-- `DQSNV3Request.MAX_REQUEST_BYTES`. -/
def MAX_REQUEST_BYTES : Nat := 500000

/-- `DQSNV3Request.MAX_REQUEST_NODES`. -/
def MAX_REQUEST_NODES : Nat := 50000

/-- `DQSNV3Request.MAX_SIGNALS`. -/
def REQUEST_MAX_SIGNALS : Nat := 256

/-- `DQSNV3Request.MAX_REASON_CODES`. -/
def MAX_REASON_CODES : Nat := 64

/-- `DQSNV3Request.MAX_REASON_CODE_LEN`. -/
def MAX_REASON_CODE_LEN : Nat := 96

/-- Membership of a top-level key in `DQSNV3Request.TOP_LEVEL_KEYS` (a
non-string key is never `==` an ASCII string, so it counts as unknown). -/
def topLevelKeyOk (k : PyVal) : Bool :=
  match k with
  | .str s =>
    s == "contract_version" || s == "component" || s == "request_id" ||
    s == "signals" || s == "constraints"
  | _ => false

/-- `isinstance(x, int)` — true for Python bools as well (bool < int). -/
def pyIsInstInt (v : PyVal) : Bool :=
  match v with
  | .int _ => true
  | .bool _ => true
  | _ => false

/-- The int value carried by an `isinstance(x, int)` value (bools count 0/1). -/
def pyIntValue (v : PyVal) : Int :=
  match v with
  | .int n => n
  | .bool b => if b then 1 else 0
  | _ => 0

/-- Python `x == 3` for the untyped signal `contract_version` field
(`3.0 == 3` holds, `True == 3` does not). -/
def pyEqThree (v : PyVal) : Bool :=
  match v with
  | .int n => n == 3
  | .float (.finite q) => q.num == 3 * (q.den : Int)
  | _ => false

/-- A non-empty-after-strip Python string. -/
def strippedNonEmpty (v : PyVal) : Bool :=
  match v with
  | .str s => !(pyTrim s).isEmpty
  | _ => false

/-- `ALLOWED_DECISIONS` membership after `strip`/`upper` normalisation. -/
def decisionAllowed (d : String) : Bool :=
  d == "ALLOW" || d == "WARN" || d == "BLOCK" || d == "ERROR"

/-- `ALLOWED_RISK_TIERS` membership after `strip`/`upper` normalisation. -/
def tierAllowed (t : String) : Bool :=
  t == "LOW" || t == "MEDIUM" || t == "HIGH" || t == "CRITICAL"

/-- The exact rational value of a validated numeric risk score. -/
def scoreRat (v : PyVal) : PyRat :=
  match v with
  | .int n => ⟨n, 1⟩
  | .float (.finite q) => q
  | _ => ⟨0, 1⟩

/-- Checks of the `from_dict` signal loop after the score is known finite:
range, tier, reason codes, evidence, meta. -/
def signalScoreTail (q : PyRat) (tier : PyVal) (kvs : List (PyVal × PyVal)) :
    Except PyErr Unit :=
  if PyRat.lt q ⟨0, 1⟩ || PyRat.lt ⟨1, 1⟩ q then
    .error (.valueError RC_SIGNAL_INVALID)
  else
    match tier with
    | .str t =>
      if !tierAllowed (pyUpper (pyTrim t)) then
        .error (.valueError RC_SIGNAL_INVALID)
      else
        match (getKV kvs "reason_codes").getD .none with
        | .list rcodes =>
          if MAX_REASON_CODES < rcodes.length then
            .error (.valueError RC_SIGNAL_INVALID)
          else if rcodes.any (fun r =>
              match r with
              | .str t => (pyTrim t).isEmpty || MAX_REASON_CODE_LEN < t.length
              | _ => true) then
            .error (.valueError RC_SIGNAL_INVALID)
          else
            match (getKV kvs "evidence").getD .none with
            | .dict _ =>
              match (getKV kvs "meta").getD .none with
              | .dict _ => .ok ()
              | _ => .error (.valueError RC_SIGNAL_INVALID)
            | _ => .error (.valueError RC_SIGNAL_INVALID)
        | _ => .error (.valueError RC_SIGNAL_INVALID)
    | _ => .error (.valueError RC_SIGNAL_INVALID)

/-- Per-signal structural validation inside `from_dict` (the `for s in sigs`
loop body); `OverflowError` can escape from `float(score)` on a huge int. -/
def signalCheckFD (s : PyVal) : Except PyErr Unit :=
  match s with
  | .dict kvs =>
    if (getKV kvs "contract_version").isNone || (getKV kvs "component").isNone ||
       (getKV kvs "request_id").isNone || (getKV kvs "context_hash").isNone ||
       (getKV kvs "decision").isNone || (getKV kvs "risk").isNone ||
       (getKV kvs "reason_codes").isNone || (getKV kvs "evidence").isNone ||
       (getKV kvs "meta").isNone then
      .error (.valueError RC_SIGNAL_INVALID)
    else if !pyEqThree ((getKV kvs "contract_version").getD .none) then
      .error (.valueError RC_SIGNAL_INVALID)
    else if !strippedNonEmpty ((getKV kvs "component").getD .none) then
      .error (.valueError RC_SIGNAL_INVALID)
    else if !strippedNonEmpty ((getKV kvs "request_id").getD .none) then
      .error (.valueError RC_SIGNAL_INVALID)
    else if !strippedNonEmpty ((getKV kvs "context_hash").getD .none) then
      .error (.valueError RC_SIGNAL_INVALID)
    else
      match (getKV kvs "decision").getD .none with
      | .str dec =>
        if !decisionAllowed (pyUpper (pyTrim dec)) then
          .error (.valueError RC_SIGNAL_INVALID)
        else
          match (getKV kvs "risk").getD .none with
          | .dict riskKvs =>
            let score := (getKV riskKvs "score").getD .none
            let tier := (getKV riskKvs "tier").getD .none
            match score with
            | .bool _ => .error (.valueError RC_SIGNAL_INVALID)
            | .int n =>
              if intFloatOverflows n then .error .overflowError
              else signalScoreTail (⟨n, 1⟩ : PyRat) tier kvs
            | .float (.finite q) => signalScoreTail q tier kvs
            | .float _ => .error (.valueError RC_SIGNAL_INVALID)
            | _ => .error (.valueError RC_SIGNAL_INVALID)
          | _ => .error (.valueError RC_SIGNAL_INVALID)
      | _ => .error (.valueError RC_SIGNAL_INVALID)
  | _ => .error (.valueError RC_SIGNAL_INVALID)

/-- Run `signalCheckFD` over the signals in order (first failure wins). -/
def signalsCheckFD : List PyVal → Except PyErr Unit
  | [] => .ok ()
  | s :: rest => do
    signalCheckFD s
    signalsCheckFD rest

/-- Python `int(x)` for the `max_latency_ms` constraint:
`Option.none` models the exceptions (`ValueError`/`TypeError`) that the
surrounding `try` swallows.  Floats truncate toward zero; numeric strings
parse after stripping whitespace.  Deliberately narrower than CPython on
exotic string forms (digit-group underscores such as `"1_2"`, non-ASCII
decimal digits), which here fall back to the 2500 default; the parsed
constraint provably never reaches the output envelope (constraints
non-interference, claim C9), so the gap is observationally irrelevant. -/
def pyToIntOpt (v : PyVal) : Option Int :=
  match v with
  | .int n => some n
  | .bool b => some (if b then 1 else 0)
  | .float (.finite q) => some (Int.tdiv q.num (q.den : Int))
  | .float _ => Option.none
  | .str s =>
    let t := pyTrim s
    let core := if t.startsWith "-" || t.startsWith "+" then t.drop 1 else t
    if core.isEmpty || !core.data.all Char.isDigit then Option.none
    else
      let n : Int := core.data.foldl (fun a c => a * 10 + (c.toNat - 48 : Nat)) (0 : Int)
      some (if t.startsWith "-" then -n else n)
  | _ => Option.none

/-- Constraint parsing at the end of `from_dict`: the caller can never
disable `fail_closed`; `max_latency_ms` defaults to 2500 and is clamped to
`[0, 60000]`. -/
def parseConstraints (con : List (PyVal × PyVal)) : DQSNV3Constraints :=
  let raw := (getKV con "max_latency_ms").getD (.int 2500)
  let i := (pyToIntOpt raw).getD 2500
  let i := if i < 0 then 0 else i
  let i := if 60000 < i then 60000 else i
  ⟨true, i⟩

/-- `v3_types.DQSNV3Request.from_dict`.  Errors are `ValueError(code)` raised
by the validation checks, an uncaught `OverflowError` from `float()` of an
astronomically large int, or an `AttributeError` on the signals-not-a-list
branch: that line evaluates `ReasonCode.DQSN_ERROR_SIGNALS_REQUIRED`, an enum
member that does not exist in the repo, so CPython raises `AttributeError`
before the intended `ValueError`.  (`evaluate`'s outer `except Exception`
handler later maps any non-`ValueError` to `DQSN_ERROR_INVALID_REQUEST`.) -/
def from_dict (obj : PyVal) : Except PyErr DQSNV3Request :=
  match obj with
  | .dict kvs =>
    if kvs.any (fun kv => !topLevelKeyOk kv.1) then
      .error (.valueError RC_UNKNOWN_TOP_LEVEL_KEY)
    else
      let cv := (getKV kvs "contract_version").getD .none
      let comp := (getKV kvs "component").getD .none
      let rid := (getKV kvs "request_id").getD .none
      let con := (getKV kvs "constraints").getD (.dict [])
      if !pyIsInstInt cv then .error (.valueError RC_SCHEMA_VERSION)
      else
        match comp, rid with
        | .str compS, .str ridS =>
          if (pyTrim compS).isEmpty then .error (.valueError RC_INVALID_REQUEST)
          else if (pyTrim ridS).isEmpty then .error (.valueError RC_INVALID_REQUEST)
          else
            match (getKV kvs "signals").getD .none with
            | .list sigs =>
              if REQUEST_MAX_SIGNALS < sigs.length then
                .error (.valueError RC_SIGNAL_TOO_MANY)
              else
                match canonicalJson obj with
                | .error _ => .error (.valueError RC_INVALID_REQUEST)
                | .ok canonical =>
                  if MAX_REQUEST_BYTES < utf8Len canonical then
                    .error (.valueError RC_PAYLOAD_TOO_LARGE)
                  else
                    match walkCheckFinite obj MAX_REQUEST_NODES with
                    | .error e => .error e
                    | .ok (some rc) => .error (.valueError rc)
                    | .ok Option.none =>
                      match signalsCheckFD sigs with
                      | .error e => .error e
                      | .ok () =>
                        match con with
                        | .none =>
                          .ok ⟨pyIntValue cv, pyTrim compS, pyTrim ridS, sigs,
                               parseConstraints []⟩
                        | .dict conKvs =>
                          .ok ⟨pyIntValue cv, pyTrim compS, pyTrim ridS, sigs,
                               parseConstraints conKvs⟩
                        | _ => .error (.valueError RC_INVALID_REQUEST)
            | _ => .error .attributeError
        | .str compS, _ =>
          if (pyTrim compS).isEmpty then .error (.valueError RC_INVALID_REQUEST)
          else .error (.valueError RC_INVALID_REQUEST)
        | _, _ => .error (.valueError RC_INVALID_REQUEST)
  | _ => .error (.valueError RC_INVALID_REQUEST)

/-! ### The aggregation layer (`v3.DQSNV3`) -/

/-- `DQSNV3.MAX_PAYLOAD_BYTES` (512 KB). -/
def MAX_PAYLOAD_BYTES : Nat := 512000

/-- `DQSNV3.MAX_SIGNALS` (the backstop cap). -/
def V3_MAX_SIGNALS : Nat := 128

/-- `DQSNV3._safe_request_id`: `str(request.get("request_id", "unknown"))`
with `None` mapped to `"unknown"`, and `"unknown"` for non-mappings. -/
def safeRequestId (request : PyVal) : String :=
  match request with
  | .dict kvs =>
    match getKV kvs "request_id" with
    | Option.none => "unknown"
    | some .none => "unknown"
    | some v => pyStr v
  | _ => "unknown"

/-- `DQSNV3._encoded_size_bytes`: UTF-8 byte length of the canonical JSON
form; any serialization exception yields `10^9`. -/
def encodedSizeBytes (obj : PyVal) : Nat :=
  match canonicalJson obj with
  | .ok s => utf8Len s
  | .error _ => 10 ^ 9

mutual

/-- `DQSNV3._walk_check_finite` (the recursive per-signal variant): `true`
when no NaN/Inf occurs anywhere; dict traversal covers values only. -/
def walkFiniteRec : PyVal → Except PyErr Bool
  | .dict kvs => walkFiniteRecKVs kvs
  | .list xs => walkFiniteRecList xs
  | .bool _ => .ok true
  | .int n => if intFloatOverflows n then .error .overflowError else .ok true
  | .float (.finite _) => .ok true
  | .float _ => .ok false
  | _ => .ok true

/-- Values of a dict, in order, short-circuiting on the first failure. -/
def walkFiniteRecKVs : List (PyVal × PyVal) → Except PyErr Bool
  | [] => .ok true
  | (_, v) :: rest =>
    match walkFiniteRec v with
    | .error e => .error e
    | .ok false => .ok false
    | .ok true => walkFiniteRecKVs rest

/-- Elements of a list, in order, short-circuiting on the first failure. -/
def walkFiniteRecList : List PyVal → Except PyErr Bool
  | [] => .ok true
  | v :: rest =>
    match walkFiniteRec v with
    | .error e => .error e
    | .ok false => .ok false
    | .ok true => walkFiniteRecList rest

end

/-- Checks of `_validate_upstream_signal` from the `isfinite` test on: a
non-finite score is `BAD_NUMBER`, an out-of-range one `SIGNAL_INVALID`, then
tier, reason codes and meta. -/
def validateScoreTail (q : PyRat) (finite : Bool) (tier : PyVal)
    (kvs : List (PyVal × PyVal)) : Except PyErr (Option String) :=
  if !finite then .ok (some RC_BAD_NUMBER)
  else if PyRat.lt q ⟨0, 1⟩ || PyRat.lt ⟨1, 1⟩ q then
    .ok (some RC_SIGNAL_INVALID)
  else
    match tier with
    | .str t =>
      if !tierAllowed (pyTrim (pyUpper t)) then .ok (some RC_SIGNAL_INVALID)
      else
        match (getKV kvs "reason_codes").getD .none with
        | .list rcodes =>
          if rcodes.any (fun r => match r with | .str _ => false | _ => true) then
            .ok (some RC_SIGNAL_INVALID)
          else
            match (getKV kvs "meta").getD .none with
            | .dict metaKvs =>
              match getKV metaKvs "fail_closed" with
              | some (.bool true) => .ok Option.none
              | _ => .ok (some RC_SIGNAL_INVALID)
            | _ => .ok (some RC_SIGNAL_INVALID)
        | _ => .ok (some RC_SIGNAL_INVALID)
    | _ => .ok (some RC_SIGNAL_INVALID)

/-- `DQSNV3._validate_upstream_signal`: `ok Option.none` models the Python
`(True, "")`, `ok (some code)` models `(False, code)`. -/
def validateUpstreamSignal (s : PyVal) : Except PyErr (Option String) :=
  match s with
  | .dict kvs =>
    match walkFiniteRec (.dict kvs) with
    | .error e => .error e
    | .ok false => .ok (some RC_BAD_NUMBER)
    | .ok true =>
      if (getKV kvs "contract_version").isNone || (getKV kvs "component").isNone ||
         (getKV kvs "request_id").isNone || (getKV kvs "context_hash").isNone ||
         (getKV kvs "decision").isNone || (getKV kvs "risk").isNone ||
         (getKV kvs "reason_codes").isNone || (getKV kvs "meta").isNone then
        .ok (some RC_SIGNAL_INVALID)
      else if !pyEqThree ((getKV kvs "contract_version").getD .none) then
        .ok (some RC_SIGNAL_INVALID)
      else if !strippedNonEmpty ((getKV kvs "component").getD .none) then
        .ok (some RC_SIGNAL_INVALID)
      else if !strippedNonEmpty ((getKV kvs "request_id").getD .none) then
        .ok (some RC_SIGNAL_INVALID)
      else if !strippedNonEmpty ((getKV kvs "context_hash").getD .none) then
        .ok (some RC_SIGNAL_INVALID)
      else if !decisionAllowed
          (pyTrim (pyUpper (pyStr ((getKV kvs "decision").getD (.str ""))))) then
        .ok (some RC_SIGNAL_INVALID)
      else
        match (getKV kvs "risk").getD .none with
        | .dict riskKvs =>
          let score := (getKV riskKvs "score").getD .none
          let tier := (getKV riskKvs "tier").getD .none
          match score with
          | .bool _ => .ok (some RC_SIGNAL_INVALID)
          | .int n =>
            if intFloatOverflows n then .error .overflowError
            else validateScoreTail (⟨n, 1⟩ : PyRat) true tier kvs
          | .float (.finite q) => validateScoreTail q true tier kvs
          | .float _ => validateScoreTail ⟨0, 1⟩ false tier kvs
          | _ => .ok (some RC_SIGNAL_INVALID)
        | _ => .ok (some RC_SIGNAL_INVALID)
  | _ => .ok (some RC_SIGNAL_INVALID)

/-- The `for s in req.signals` validation loop in `evaluate` (fail-closed on
the first invalid signal). -/
def firstInvalid : List PyVal → Except PyErr (Option String)
  | [] => .ok Option.none
  | s :: rest =>
    match validateUpstreamSignal s with
    | .error e => .error e
    | .ok (some r) => .ok (some r)
    | .ok Option.none => firstInvalid rest

/-- The dedup map `unique_by_hash` built in `evaluate`: keyed by
`str(s.get("context_hash", ""))`, first occurrence wins, empty hash strings
are dropped, insertion order preserved. -/
def dedupByHash (signals : List PyVal) : List (String × PyVal) :=
  signals.foldl (fun acc s =>
    let ch := pyStr (s.getD "context_hash" (.str ""))
    if !ch.isEmpty && !acc.any (fun p => p.1 == ch) then acc ++ [(ch, s)]
    else acc) []

/-- Sort key of the stable signal sort:
`(str(x.get("component", "")), str(x.get("context_hash", "")))`. -/
def signalSortKey (s : PyVal) : String × String :=
  (pyStr (s.getD "component" (.str "")), pyStr (s.getD "context_hash" (.str "")))

/-- Lexicographic tuple `≤` on sort keys (Python tuple comparison). -/
def sigKeyLe (a b : PyVal) : Bool :=
  let ka := signalSortKey a
  let kb := signalSortKey b
  if ka.1 == kb.1 then pyStrLe ka.2 kb.2 else pyStrLe ka.1 kb.1

/-- The dedup key of a signal: `str(s.get("context_hash", ""))`. -/
def hashStr (s : PyVal) : String := pyStr (s.getD "context_hash" (.str ""))

/-- One step of the dedup fold of `dedupByHash` (named for reasoning). -/
def dedupStep (acc : List (String × PyVal)) (s : PyVal) : List (String × PyVal) :=
  if !(hashStr s).isEmpty && !acc.any (fun p => p.1 == hashStr s) then
    acc ++ [(hashStr s, s)]
  else acc

/-- `DQSNV3._aggregate_decision`: ERROR/BLOCK dominate as `BLOCK`, then
`WARN` escalates, else `ALLOW`. -/
def aggregateDecision (signals : List PyVal) : String :=
  let decisions := signals.map (fun s => pyTrim (pyUpper (pyStr (s.getD "decision" (.str "")))))
  if decisions.any (fun d => d == "ERROR" || d == "BLOCK") then "BLOCK"
  else if decisions.any (fun d => d == "WARN") then "ESCALATE"
  else "ALLOW"

/-- `DQSNV3._reason_codes_from_decision`. -/
def reasonCodesFromDecision (decision : String) : List String :=
  let d := pyTrim (pyUpper decision)
  if d == "ALLOW" then [RC_OK_ALLOW]
  else if d == "ESCALATE" then [RC_ESCALATE_WARN]
  else [RC_DENY_BLOCK]

/-- `DQSNV3._collect_upstream_reason_codes`: gather the stripped non-empty
string codes of every signal in order, then `sorted(set(codes))`. -/
def collectUpstreamReasonCodes (signals : List PyVal) : List String :=
  let codes := signals.flatMap (fun s =>
    match s.getD "reason_codes" (.list []) with
    | .list rcs => rcs.filterMap (fun c =>
      match c with
      | .str t => if (pyTrim t).isEmpty then Option.none else some (pyTrim t)
      | _ => Option.none)
    | _ => [])
  stableSort pyStrLe codes.eraseDups

/-- `float(x)` in `_stable_signals` (reached only for the already-validated
numeric scores; strings never reach it, so their parse is not modelled). -/
def pyFloatConv (v : PyVal) : Except PyErr PyFloat :=
  match v with
  | .float f => .ok f
  | .int n => if intFloatOverflows n then .error .overflowError
              else .ok (.finite ⟨n, 1⟩)
  | .bool b => .ok (.finite ⟨if b then 1 else 0, 1⟩)
  | _ => .error .typeError

/-- `list(x)` in `_stable_signals`. -/
def pyListConv (v : PyVal) : Except PyErr (List PyVal) :=
  match v with
  | .list xs => .ok xs
  | .str s => .ok (s.data.map (fun c => .str (String.mk [c])))
  | .dict kvs => .ok (kvs.map (·.1))
  | _ => .error .typeError

/-- One entry of `DQSNV3._stable_signals`: the stable audit view of a
signal. -/
def stableSignal (s : PyVal) : Except PyErr PyVal := do
  let risk := s.getD "risk" (.dict [])
  let scoreF ← pyFloatConv (risk.getD "score" (.float (.finite ⟨0, 1⟩)))
  let rcs ← pyListConv (s.getD "reason_codes" (.list []))
  .ok (.dict
    [(.str "component", .str (pyStr (s.getD "component" (.str "")))),
     (.str "request_id", .str (pyStr (s.getD "request_id" (.str "")))),
     (.str "context_hash", .str (pyStr (s.getD "context_hash" (.str "")))),
     (.str "decision", .str (pyTrim (pyUpper (pyStr (s.getD "decision" (.str "")))))),
     (.str "risk", .dict
       [(.str "score", .float scoreF),
        (.str "tier", .str (pyTrim (pyUpper (pyStr (risk.getD "tier" (.str ""))))))]),
     (.str "reason_codes", .list rcs)])

/-- `DQSNV3._stable_signals`. -/
def stableSignals : List PyVal → Except PyErr (List PyVal)
  | [] => .ok []
  | s :: rest => do
    let v ← stableSignal s
    let tail ← stableSignals rest
    .ok (v :: tail)

/-- `DQSNV3._risk_from_decision`. -/
def riskFromDecision (decision : String) : PyVal :=
  let d := pyTrim (pyUpper decision)
  if d == "ALLOW" then
    .dict [(.str "score", .float (.finite ⟨0, 1⟩)), (.str "tier", .str "LOW")]
  else if d == "ESCALATE" then
    .dict [(.str "score", .float (.finite ⟨1, 2⟩)), (.str "tier", .str "MEDIUM")]
  else
    .dict [(.str "score", .float (.finite ⟨1, 1⟩)), (.str "tier", .str "HIGH")]

/-- `DQSNV3._error`: the fail-closed ERROR envelope. -/
def errorEnvelope (request_id reason_code : String) (latency inputSignals uniqueSignals : Int) :
    PyVal :=
  let ctx := PyVal.dict
    [(.str "component", .str "dqsn"),
     (.str "contract_version", .int 3),
     (.str "request_id", .str request_id),
     (.str "reason_code", .str reason_code)]
  .dict
    [(.str "contract_version", .int 3),
     (.str "component", .str "dqsn"),
     (.str "request_id", .str request_id),
     (.str "context_hash", .str (canonical_sha256 ctx)),
     (.str "decision", .str "ERROR"),
     (.str "risk", .dict
       [(.str "score", .float (.finite ⟨1, 1⟩)), (.str "tier", .str "CRITICAL")]),
     (.str "reason_codes", .list [.str reason_code]),
     (.str "evidence", .dict
       [(.str "dedup", .dict
         [(.str "input_signals", .int inputSignals),
          (.str "unique_signals", .int uniqueSignals)]),
        (.str "details", .dict [(.str "error", .str reason_code)])]),
     (.str "meta", .dict
       [(.str "latency_ms", .int latency), (.str "fail_closed", .bool true)])]

/-- `len(request.get("signals", [])) if isinstance(request, dict) else 0`,
computed inside the `except` handlers of `evaluate`; `len` of a non-sized
value raises `TypeError` — out of any handler. -/
def inputSignalsLen (request : PyVal) : Except PyErr Nat :=
  match request with
  | .dict kvs =>
    match getKV kvs "signals" with
    | Option.none => .ok 0
    | some v => pyLen v
  | _ => .ok 0

/-- The tail of `evaluate` after every request- and signal-level check has
passed: dedup, stable sort, rollup, reason-code synthesis, context hash and
envelope assembly.  Only the request id and the validated signals feed it. -/
def evalSuccess (request_id : String) (signals : List PyVal) : Except PyErr PyVal := do
  let inputSignals := signals.length
  let uniq := dedupByHash signals
  let uniqueCount := uniq.length
  let sortedSignals := stableSort sigKeyLe (uniq.map (·.2))
  let decisionOut := aggregateDecision sortedSignals
  let reasonCodes := reasonCodesFromDecision decisionOut ++
    collectUpstreamReasonCodes sortedSignals
  let stable ← stableSignals sortedSignals
  let ctx := PyVal.dict
    [(.str "component", .str "dqsn"),
     (.str "contract_version", .int 3),
     (.str "request_id", .str request_id),
     (.str "signals", .list stable),
     (.str "decision", .str decisionOut),
     (.str "reason_codes", .list (reasonCodes.map .str))]
  .ok (.dict
    [(.str "contract_version", .int 3),
     (.str "component", .str "dqsn"),
     (.str "request_id", .str request_id),
     (.str "context_hash", .str (canonical_sha256 ctx)),
     (.str "decision", .str decisionOut),
     (.str "risk", riskFromDecision decisionOut),
     (.str "reason_codes", .list (reasonCodes.map .str)),
     (.str "evidence", .dict
       [(.str "dedup", .dict
         [(.str "input_signals", .int inputSignals),
          (.str "unique_signals", .int uniqueCount)]),
        (.str "signals", .list stable)]),
     (.str "meta", .dict
       [(.str "latency_ms", .int 0), (.str "fail_closed", .bool true)])])

/-- Lines 70–166 of `evaluate`: everything after a successful
`DQSNV3Request.from_dict` parse (which reads only the typed request). -/
def evalParsed (req : DQSNV3Request) : Except PyErr PyVal :=
  if req.contract_version ≠ 3 then
    .ok (errorEnvelope req.request_id RC_SCHEMA_VERSION 0 req.signals.length 0)
  else if req.component ≠ "dqsn" then
    .ok (errorEnvelope req.request_id RC_INVALID_REQUEST 0 req.signals.length 0)
  else if min V3_MAX_SIGNALS REQUEST_MAX_SIGNALS < req.signals.length then
    .ok (errorEnvelope req.request_id RC_SIGNAL_TOO_MANY 0 req.signals.length 0)
  else
    match firstInvalid req.signals with
    | .error e => .error e
    | .ok (some reason) =>
      .ok (errorEnvelope req.request_id reason 0 req.signals.length 0)
    | .ok Option.none => evalSuccess req.request_id req.signals

/-- `DQSNV3.evaluate`.  A returned envelope is `.ok`; `.error` models a
Python exception escaping the call. -/
def evaluate (request : PyVal) : Except PyErr PyVal :=
  if MAX_PAYLOAD_BYTES < encodedSizeBytes request then
    .ok (errorEnvelope (safeRequestId request) RC_PAYLOAD_TOO_LARGE 0 0 0)
  else
    match from_dict request with
    | .error (.valueError code) =>
      match inputSignalsLen request with
      | .error e => .error e
      | .ok n =>
        .ok (errorEnvelope (safeRequestId request)
          (if code.isEmpty then RC_INVALID_REQUEST else code) 0 n 0)
    | .error _ =>
      match inputSignalsLen request with
      | .error e => .error e
      | .ok n => .ok (errorEnvelope (safeRequestId request) RC_INVALID_REQUEST 0 n 0)
    | .ok req => evalParsed req

/-! ### Specification-side definitions

These follow the wording of the specification sentences under test (not the
source), to be compared with what the embedded code computes. -/

/-- The kept (deduplicated, stably ordered) signal set of a request's signal
list, as produced by the aggregation pipeline. -/
def keptSignals (signals : List PyVal) : List PyVal :=
  stableSort sigKeyLe ((dedupByHash signals).map (·.2))

/-- The normalised upstream decision string of a signal. -/
def normalizedDecision (s : PyVal) : String :=
  pyTrim (pyUpper (pyStr (s.getD "decision" (.str ""))))

/-- Spec wording (amended rollup): any kept `ERROR` or `BLOCK` gives `BLOCK`,
else any `WARN` gives `ESCALATE`, else `ALLOW`. -/
def specRollupDecision (decisions : List String) : String :=
  if decisions.any (fun d => d == "ERROR" || d == "BLOCK") then "BLOCK"
  else if decisions.any (fun d => d == "WARN") then "ESCALATE"
  else "ALLOW"

/-- Spec wording (amended risk): the response risk is a function of the
rollup decision alone. -/
def specRiskForDecision (d : String) : PyVal :=
  if d == "ALLOW" then
    .dict [(.str "score", .float (.finite ⟨0, 1⟩)), (.str "tier", .str "LOW")]
  else if d == "ESCALATE" then
    .dict [(.str "score", .float (.finite ⟨1, 2⟩)), (.str "tier", .str "MEDIUM")]
  else
    .dict [(.str "score", .float (.finite ⟨1, 1⟩)), (.str "tier", .str "HIGH")]

/-- Spec wording (claim C2 as stated): the maximum upstream `risk.score`
over a signal set, `0.0` when empty. -/
def specMaxScore (signals : List PyVal) : PyRat :=
  signals.foldl (fun acc s =>
    let q := scoreRat ((s.getD "risk" (.dict [])).getD "score" (.float (.finite ⟨0, 1⟩)))
    if PyRat.lt acc q then q else acc) ⟨0, 1⟩

/-- Spec wording (claim C2 as stated): tier thresholds
`<0.25 LOW`, `<0.60 MEDIUM`, `<0.85 HIGH`, else `CRITICAL`. -/
def specTierFor (q : PyRat) : String :=
  if PyRat.lt q ⟨1, 4⟩ then "LOW"
  else if PyRat.lt q ⟨3, 5⟩ then "MEDIUM"
  else if PyRat.lt q ⟨17, 20⟩ then "HIGH"
  else "CRITICAL"

/-- Spec wording (claim C4): the outcome code matching a response decision. -/
def specOutcomeCode (d : String) : String :=
  if d == "ALLOW" then RC_OK_ALLOW
  else if d == "ESCALATE" then RC_ESCALATE_WARN
  else RC_DENY_BLOCK

/-- Spec wording (claim C4, amended): the sorted-unique suffix of the kept
signals' stripped, non-empty upstream reason codes. -/
def specUpstreamSuffix (kept : List PyVal) : List String :=
  let codes := kept.flatMap (fun s =>
    match s.getD "reason_codes" (.list []) with
    | .list rcs => rcs.filterMap (fun c =>
      match c with
      | .str t => if (pyTrim t).isEmpty then Option.none else some (pyTrim t)
      | _ => Option.none)
    | _ => [])
  stableSort pyStrLe codes.eraseDups

/-- Spec wording (claim C10): the request id reported on pre-validation
error paths — the input's `request_id` coerced with `str`, or the literal
`"unknown"` when the input is not a mapping or the field is absent or
`None`. -/
def specSafeRequestId (request : PyVal) : String :=
  match request with
  | .dict kvs =>
    match getKV kvs "request_id" with
    | Option.none => "unknown"
    | some .none => "unknown"
    | some v => pyStr v
  | _ => "unknown"

/-- First element of a returned envelope's `reason_codes` list. -/
def firstReason (v : Except PyErr PyVal) : Option String :=
  match v with
  | .ok r =>
    match r.getStr "reason_codes" with
    | some (.list (.str c :: _)) => some c
    | _ => Option.none
  | .error _ => Option.none

/-- Key equality against an ASCII string constant. -/
def keyIs (k : PyVal) (s : String) : Bool :=
  match k with
  | .str t => t == s
  | _ => false

/-- A request with its top-level `constraints` entries removed (identity on
non-dicts); two requests are "identical except for constraints" when their
images agree. -/
def eraseConstraints (r : PyVal) : PyVal :=
  match r with
  | .dict kvs => .dict (kvs.filter (fun kv => !keyIs kv.1 "constraints"))
  | v => v

/-- A value that is itself a non-finite float (what `_is_finite_number`
rejects at one node). -/
def topNonFinite (v : PyVal) : Bool :=
  match v with
  | .float (.finite _) => false
  | .float _ => true
  | _ => false

mutual

/-- A NaN or ±Infinity float occurs somewhere in the tree (dict keys and
values included; booleans are not numbers and never trigger it). -/
def hasNonFinite : PyVal → Bool
  | .float (.finite _) => false
  | .float _ => true
  | .list xs => hasNonFiniteList xs
  | .dict kvs => hasNonFiniteKVs kvs
  | _ => false

/-- `hasNonFinite` over list elements. -/
def hasNonFiniteList : List PyVal → Bool
  | [] => false
  | x :: xs => hasNonFinite x || hasNonFiniteList xs

/-- `hasNonFinite` over dict entries. -/
def hasNonFiniteKVs : List (PyVal × PyVal) → Bool
  | [] => false
  | (k, v) :: rest => hasNonFinite k || hasNonFinite v || hasNonFiniteKVs rest

end

mutual

/-- Every int in the tree stays below the `float()` overflow threshold
(model-honesty bound: CPython raises `OverflowError`, remapped to
`DQSN_ERROR_INVALID_REQUEST`, for astronomically large ints). -/
def smallInts : PyVal → Bool
  | .int n => !intFloatOverflows n
  | .list xs => smallIntsList xs
  | .dict kvs => smallIntsKVs kvs
  | _ => true

/-- `smallInts` over list elements. -/
def smallIntsList : List PyVal → Bool
  | [] => true
  | x :: xs => smallInts x && smallIntsList xs

/-- `smallInts` over dict entries. -/
def smallIntsKVs : List (PyVal × PyVal) → Bool
  | [] => true
  | (k, v) :: rest => smallInts k && smallInts v && smallIntsKVs rest

end

mutual

/-- The number of stack pops the hygiene walk performs on this value: one
for the value itself plus one for every nested key, value and element. -/
def pyNodes : PyVal → Nat
  | .list xs => 1 + pyNodesList xs
  | .dict kvs => 1 + pyNodesKVs kvs
  | _ => 1

/-- `pyNodes` summed over list elements. -/
def pyNodesList : List PyVal → Nat
  | [] => 0
  | x :: xs => pyNodes x + pyNodesList xs

/-- `pyNodes` summed over dict entries. -/
def pyNodesKVs : List (PyVal × PyVal) → Nat
  | [] => 0
  | (k, v) :: rest => pyNodes k + pyNodes v + pyNodesKVs rest

end

/-! ### Concrete requests for witnesses and counterexamples -/

/-- A well-formed upstream signal envelope. -/
def mkSignal (rid ch dec tier : String) (score : PyRat) (codes : List String) : PyVal :=
  .dict
    [(.str "contract_version", .int 3),
     (.str "component", .str "sentinel"),
     (.str "request_id", .str rid),
     (.str "context_hash", .str ch),
     (.str "decision", .str dec),
     (.str "risk", .dict
       [(.str "score", .float (.finite score)), (.str "tier", .str tier)]),
     (.str "reason_codes", .list (codes.map .str)),
     (.str "evidence", .dict [(.str "k", .str "v")]),
     (.str "meta", .dict [(.str "fail_closed", .bool true)])]

/-- A well-formed request around a signal list. -/
def mkRequest (sigs : List PyVal) : PyVal :=
  .dict
    [(.str "contract_version", .int 3),
     (.str "component", .str "dqsn"),
     (.str "request_id", .str "rq1"),
     (.str "constraints", .dict []),
     (.str "signals", .list sigs)]

/-- One `WARN` signal (used by several witnesses). -/
def sigWarn : PyVal := mkSignal "s1" "h1" "WARN" "MEDIUM" ⟨1, 2⟩ ["W1"]

/-- One `ALLOW` signal with a distinct hash. -/
def sigAllow : PyVal := mkSignal "s2" "h2" "ALLOW" "LOW" ⟨0, 1⟩ ["A1"]

/-- One `ERROR` signal. -/
def sigError : PyVal := mkSignal "s3" "h3" "ERROR" "CRITICAL" ⟨1, 1⟩ ["E1"]

/-- A `WARN` signal with risk score 0.9. -/
def sigWarnHigh : PyVal := mkSignal "s4" "h4" "WARN" "HIGH" ⟨9, 10⟩ ["W9"]

/-- A signal whose risk score is NaN. -/
def sigNaN : PyVal :=
  .dict
    [(.str "contract_version", .int 3),
     (.str "component", .str "sentinel"),
     (.str "request_id", .str "s5"),
     (.str "context_hash", .str "h5"),
     (.str "decision", .str "ALLOW"),
     (.str "risk", .dict
       [(.str "score", .float .nan), (.str "tier", .str "LOW")]),
     (.str "reason_codes", .list [.str "N1"]),
     (.str "evidence", .dict []),
     (.str "meta", .dict [(.str "fail_closed", .bool true)])]

/-- Conflicting duplicates: same `context_hash`, different decisions. -/
def sigDupAllow : PyVal := mkSignal "d1" "dup" "ALLOW" "LOW" ⟨0, 1⟩ ["C1"]

/-- The `WARN` twin of `sigDupAllow` under the same `context_hash`. -/
def sigDupWarn : PyVal := mkSignal "d2" "dup" "WARN" "MEDIUM" ⟨1, 2⟩ ["C2"]

/-- Request with one `ERROR` signal (C1's concrete input). -/
def reqErrorSig : PyVal := mkRequest [sigError]

/-- Request with one high-score `WARN` signal (C2's concrete input). -/
def reqWarnHigh : PyVal := mkRequest [sigWarnHigh]

/-- Request with one plain `WARN` signal. -/
def reqWarn : PyVal := mkRequest [sigWarn]

/-- Conflicting duplicates, `ALLOW` first. -/
def reqDupAF : PyVal := mkRequest [sigDupAllow, sigDupWarn]

/-- Conflicting duplicates, `WARN` first. -/
def reqDupWF : PyVal := mkRequest [sigDupWarn, sigDupAllow]

/-- Distinct-hash pair, `WARN` first. -/
def reqOrd1 : PyVal := mkRequest [sigWarn, sigAllow]

/-- Distinct-hash pair, `ALLOW` first. -/
def reqOrd2 : PyVal := mkRequest [sigAllow, sigWarn]

/-- Request whose `signals` field is the integer 7 (C5's failing input):
`evaluate` raises `TypeError` computing `len(request.get("signals", []))`
inside its own `except ValueError` handler. -/
def reqSignalsInt : PyVal :=
  .dict
    [(.str "contract_version", .int 3),
     (.str "component", .str "dqsn"),
     (.str "request_id", .str "r"),
     (.str "signals", .int 7)]

/-- Request with a NaN buried in a signal (C7's concrete input). -/
def reqNaN : PyVal := mkRequest [sigNaN]

/-- `10^400`: a Python int far past the `float()` overflow threshold. -/
def hugeInt : Int :=
  10000000000000000000000000000000000000000000000000000000000000000000000000000000000000000000000000000000000000000000000000000000000000000000000000000000000000000000000000000000000000000000000000000000000000000000000000000000000000000000000000000000000000000000000000000000000000000000000000000000000000000000000000000000000000000000000000000000000000000000000000000000000000000000000000000000000000000

/-- Entry list of `reqHugeNaN`: every structural precheck passes and a NaN
sits inside the signal, but the huge `contract_version` makes the hygiene
walk raise `OverflowError` before it ever reaches the NaN. -/
def reqHugeKvs : List (PyVal × PyVal) :=
  [(.str "contract_version", .int hugeInt),
   (.str "component", .str "dqsn"),
   (.str "request_id", .str "r7"),
   (.str "signals", .list [sigNaN])]

/-- The C7 counterexample request. -/
def reqHugeNaN : PyVal := .dict reqHugeKvs

/-- The signal replicated in the 129-signal request. -/
def sig129one : PyVal := mkSignal "s" "h" "ALLOW" "LOW" ⟨0, 1⟩ []

/-- 129 structurally valid signals (over the 128 backstop cap, well under
the documented 256; the length check fires before dedup, so identical
signals keep the input small). -/
def sigs129 : List PyVal := List.replicate 129 sig129one

/-- The entry list of the 129-signal request. -/
def reqKvs129 : List (PyVal × PyVal) :=
  [(.str "contract_version", .int 3),
   (.str "component", .str "dqsn"),
   (.str "request_id", .str "rq1"),
   (.str "constraints", .dict []),
   (.str "signals", .list sigs129)]

/-- The request carrying `sigs129`. -/
def req129 : PyVal := .dict reqKvs129

/-- The canonical JSON text of `sig129one` (extracted by evaluation). -/
def sigJson129 : String :=
  match canonicalJson sig129one with
  | .ok s => s
  | .error _ => ""

/-- The parsed form of `req129`. -/
def q129 : DQSNV3Request := ⟨3, "dqsn", "rq1", sigs129, ⟨true, 2500⟩⟩

/-- A request whose `signals` list has 257 entries (the entries are never
individually validated: the length check fires first). -/
def req257 : PyVal :=
  .dict
    [(.str "contract_version", .int 3),
     (.str "component", .str "dqsn"),
     (.str "request_id", .str "rq1"),
     (.str "signals", .list ((List.range 257).map (fun i => .int (Int.ofNat i))))]

/-- A valid request without `constraints`. -/
def reqNoCons : PyVal :=
  .dict
    [(.str "contract_version", .int 3),
     (.str "component", .str "dqsn"),
     (.str "request_id", .str "rq1"),
     (.str "signals", .list [sigWarn])]

/-- The same request with a recognised `max_latency_ms` constraint. -/
def reqWithCons : PyVal :=
  .dict
    [(.str "contract_version", .int 3),
     (.str "component", .str "dqsn"),
     (.str "request_id", .str "rq1"),
     (.str "signals", .list [sigWarn]),
     (.str "constraints", .dict [(.str "max_latency_ms", .int 100)])]

/-- A request rejected by `from_dict` (unknown key) whose `request_id` is the
integer 5: the error envelope must report `"5"`. -/
def reqIntRid : PyVal :=
  .dict
    [(.str "contract_version", .int 3),
     (.str "component", .str "dqsn"),
     (.str "request_id", .int 5),
     (.str "signals", .list []),
     (.str "bogus", .str "x")]

/-! ## Lemmas -/

theorem ordIns_perm (le : α → α → Bool) (a : α) :
    (l : List α) → (ordIns le a l).Perm (a :: l)
  | [] => .refl _
  | b :: l => by
    unfold ordIns
    split
    · exact .refl _
    · exact ((ordIns_perm le a l).cons b).trans (List.Perm.swap a b l)

theorem stableSort_perm (le : α → α → Bool) :
    (l : List α) → (stableSort le l).Perm l
  | [] => .refl _
  | a :: l => by
    unfold stableSort
    exact (ordIns_perm le a (stableSort le l)).trans ((stableSort_perm le l).cons a)

theorem stableSort_mem (le : α → α → Bool) (l : List α) (x : α) :
    x ∈ stableSort le l ↔ x ∈ l :=
  (stableSort_perm le l).mem_iff

/-- Everything kept by the dedup pass is one of the input signals. -/
theorem dedupByHash_mem {signals : List PyVal} {p : String × PyVal}
    (h : p ∈ dedupByHash signals) : p.2 ∈ signals := by
  have main : ∀ (l : List PyVal) (acc : List (String × PyVal)),
      (∀ x ∈ acc, x.2 ∈ signals) → (∀ s ∈ l, s ∈ signals) →
      ∀ x ∈ l.foldl (fun acc s =>
        let ch := pyStr (s.getD "context_hash" (.str ""))
        if !ch.isEmpty && !acc.any (fun p => p.1 == ch) then acc ++ [(ch, s)]
        else acc) acc, x.2 ∈ signals := by
    intro l
    induction l with
    | nil => intro acc hacc _ x hx; exact hacc x hx
    | cons s rest ih =>
      intro acc hacc hl x hx
      simp only [List.foldl_cons] at hx
      refine ih _ ?_ (fun t ht => hl t (List.mem_cons_of_mem s ht)) x hx
      intro y hy
      split at hy
      · rcases List.mem_append.1 hy with h' | h'
        · exact hacc y h'
        · simp only [List.mem_singleton] at h'
          rw [h']
          exact hl s (List.mem_cons_self s rest)
      · exact hacc y hy
  exact main signals [] (by simp) (fun s hs => hs) p h

/-- Each kept signal is an input signal. -/
theorem keptSignals_mem {signals : List PyVal} {s : PyVal}
    (h : s ∈ keptSignals signals) : s ∈ signals := by
  unfold keptSignals at h
  rcases List.mem_map.1 ((stableSort_mem _ _ _).1 h) with ⟨p, hp, rfl⟩
  exact dedupByHash_mem hp

theorem from_dict_ok_inv {r : PyVal} {q : DQSNV3Request} (h : from_dict r = .ok q) :
    ∃ kvs sigs compS ridS canonical,
      r = .dict kvs ∧
      kvs.any (fun kv => !topLevelKeyOk kv.1) = false ∧
      pyIsInstInt ((getKV kvs "contract_version").getD .none) = true ∧
      (getKV kvs "component").getD .none = .str compS ∧
      (getKV kvs "request_id").getD .none = .str ridS ∧
      (pyTrim compS).isEmpty = false ∧
      (pyTrim ridS).isEmpty = false ∧
      (getKV kvs "signals").getD .none = .list sigs ∧
      sigs.length ≤ REQUEST_MAX_SIGNALS ∧
      canonicalJson r = .ok canonical ∧
      utf8Len canonical ≤ MAX_REQUEST_BYTES ∧
      walkCheckFinite r MAX_REQUEST_NODES = .ok Option.none ∧
      signalsCheckFD sigs = .ok () ∧
      q.contract_version = pyIntValue ((getKV kvs "contract_version").getD .none) ∧
      q.component = pyTrim compS ∧
      q.request_id = pyTrim ridS ∧
      q.signals = sigs := by
  match r with
  | .none => simp [from_dict] at h
  | .bool _ => simp [from_dict] at h
  | .int _ => simp [from_dict] at h
  | .float _ => simp [from_dict] at h
  | .str _ => simp [from_dict] at h
  | .list _ => simp [from_dict] at h
  | .dict kvs =>
    simp only [from_dict] at h
    split at h
    next => exact Except.noConfusion h
    next hkeys =>
      split at h
      next => exact Except.noConfusion h
      next hcv =>
        split at h
        next compS ridS hcomp hrid =>
          split at h
          next => exact Except.noConfusion h
          next hcompE =>
            split at h
            next => exact Except.noConfusion h
            next hridE =>
              split at h
              next sigs hsigs =>
                split at h
                next => exact Except.noConfusion h
                next hlen =>
                  split at h
                  next => exact Except.noConfusion h
                  next canonical hjson =>
                    split at h
                    next => exact Except.noConfusion h
                    next hbytes =>
                      split at h
                      next e hwalk => exact Except.noConfusion h
                      next rc hwalk => exact Except.noConfusion h
                      next hwalk =>
                        split at h
                        next e hsc => exact Except.noConfusion h
                        next hsc =>
                          split at h
                          next hcon =>
                            cases h
                            exact ⟨kvs, sigs, compS, ridS, canonical, rfl,
                              by simpa using hkeys, by simpa using hcv,
                              hcomp, hrid, by simpa using hcompE,
                              by simpa using hridE, hsigs, by omega,
                              hjson, by omega, hwalk, hsc, rfl, rfl, rfl, rfl⟩
                          next conKvs hcon =>
                            cases h
                            exact ⟨kvs, sigs, compS, ridS, canonical, rfl,
                              by simpa using hkeys, by simpa using hcv,
                              hcomp, hrid, by simpa using hcompE,
                              by simpa using hridE, hsigs, by omega,
                              hjson, by omega, hwalk, hsc, rfl, rfl, rfl, rfl⟩
                          next x hx1 hx2 hcon => exact Except.noConfusion h
              next x hsigs => exact Except.noConfusion h
        next compS x hcomp hne =>
          split at h
          next => exact Except.noConfusion h
          next => exact Except.noConfusion h
        next x y hx hy => exact Except.noConfusion h

/-- After a successful parse, `evaluate` is the post-parse pipeline (the
oversize pre-check cannot fire: `from_dict` enforced the smaller 500 KB
limit on the same canonical form). -/
theorem evaluate_eq_parsed {r : PyVal} {q : DQSNV3Request}
    (h : from_dict r = .ok q) : evaluate r = evalParsed q := by
  obtain ⟨kvs, sigs, compS, ridS, canonical, -, -, -, -, -, -, -, -, -,
    hjson, hbytes, -, -, -, -, -, -⟩ := from_dict_ok_inv h
  unfold evaluate
  rw [h]
  have hsize : encodedSizeBytes r = utf8Len canonical := by
    unfold encodedSizeBytes
    rw [hjson]
  rw [if_neg]
  rw [hsize]
  unfold MAX_PAYLOAD_BYTES
  unfold MAX_REQUEST_BYTES at hbytes
  omega

/-- A clean score tail pins the `reason_codes` entry to a list. -/
theorem validateScoreTail_ok_inv {q : PyRat} {fin : Bool} {tier : PyVal}
    {kvs : List (PyVal × PyVal)}
    (h : validateScoreTail q fin tier kvs = .ok Option.none) :
    ∃ rcodes, getKV kvs "reason_codes" = some (.list rcodes) := by
  unfold validateScoreTail at h
  split at h
  next => simp at h
  next =>
    split at h
    next => simp at h
    next =>
      split at h
      next t =>
        split at h
        next => simp at h
        next =>
          split at h
          next rcodes hrc =>
            refine ⟨rcodes, ?_⟩
            cases hget : getKV kvs "reason_codes" with
            | none => rw [hget] at hrc; simp at hrc
            | some v =>
              rw [hget] at hrc
              simp only [Option.getD_some] at hrc
              rw [hrc]
          next x hrc => simp at h
      next => simp at h

/-- A signal accepted by `_validate_upstream_signal` has a stable audit
view: `_stable_signals` cannot raise on it. -/
theorem validate_ok_stableSignal {s : PyVal}
    (h : validateUpstreamSignal s = .ok Option.none) :
    ∃ v, stableSignal s = .ok v := by
  match s with
  | .dict kvs =>
    simp only [validateUpstreamSignal] at h
    split at h
    next e hw => exact Except.noConfusion h
    next hw => simp at h
    next hw =>
      split at h
      next => simp at h
      next =>
        split at h
        next => simp at h
        next =>
          split at h
          next => simp at h
          next =>
            split at h
            next => simp at h
            next =>
              split at h
              next => simp at h
              next =>
                split at h
                next => simp at h
                next =>
                  split at h
                  next riskKvs hrisk =>
                    have hriskGet : getKV kvs "risk" = some (.dict riskKvs) := by
                      cases hget : getKV kvs "risk" with
                      | none => rw [hget] at hrisk; simp at hrisk
                      | some v =>
                        rw [hget] at hrisk
                        simp only [Option.getD_some] at hrisk
                        rw [hrisk]
                    split at h
                    next hscore => simp at h
                    next n hscore =>
                      split at h
                      next => exact Except.noConfusion h
                      next hnov =>
                        obtain ⟨rcodes, hrc⟩ := validateScoreTail_ok_inv h
                        have hscoreGet : getKV riskKvs "score" = some (.int n) := by
                          cases hget : getKV riskKvs "score" with
                          | none => rw [hget] at hscore; simp at hscore
                          | some v =>
                            rw [hget] at hscore
                            simp only [Option.getD_some] at hscore
                            rw [hscore]
                        simp only [stableSignal, PyVal.getD, hriskGet, Option.getD_some,
                          hscoreGet, hrc, pyFloatConv, pyListConv, bind, Except.bind,
                          hnov, if_false, Bool.not_eq_true] at *
                        exact ⟨_, rfl⟩
                    next q hscore =>
                      obtain ⟨rcodes, hrc⟩ := validateScoreTail_ok_inv h
                      have hscoreGet : getKV riskKvs "score" = some (.float (.finite q)) := by
                        cases hget : getKV riskKvs "score" with
                        | none => rw [hget] at hscore; simp at hscore
                        | some v =>
                          rw [hget] at hscore
                          simp only [Option.getD_some] at hscore
                          rw [hscore]
                      simp only [stableSignal, PyVal.getD, hriskGet, Option.getD_some,
                        hscoreGet, hrc, pyFloatConv, pyListConv, bind, Except.bind]
                      exact ⟨_, rfl⟩
                    next hscore => simp [validateScoreTail] at h
                    next hscore => simp at h
                  next hrisk => simp at h

/-- A clean validation loop validates every signal. -/
theorem firstInvalid_all {sigs : List PyVal}
    (h : firstInvalid sigs = .ok Option.none) :
    ∀ s ∈ sigs, validateUpstreamSignal s = .ok Option.none := by
  induction sigs with
  | nil => simp
  | cons s rest ih =>
    intro t ht
    unfold firstInvalid at h
    split at h
    next e hv => exact Except.noConfusion h
    next r hv => simp at h
    next hv =>
      rcases List.mem_cons.1 ht with rfl | ht'
      · exact hv
      · exact ih h t ht'

/-- `_stable_signals` succeeds when every element has a stable view. -/
theorem stableSignals_ok {l : List PyVal}
    (h : ∀ s ∈ l, ∃ v, stableSignal s = .ok v) :
    ∃ vs, stableSignals l = .ok vs := by
  induction l with
  | nil => exact ⟨[], rfl⟩
  | cons s rest ih =>
    obtain ⟨v, hv⟩ := h s (List.mem_cons_self s rest)
    obtain ⟨vs, hvs⟩ := ih (fun t ht => h t (List.mem_cons_of_mem s ht))
    exact ⟨v :: vs, by simp [stableSignals, hv, hvs, bind, Except.bind]⟩

/-- The assembled success envelope, as a function of the validated inputs. -/
theorem evalSuccess_eq {rid : String} {sigs stable : List PyVal}
    (h : stableSignals (keptSignals sigs) = .ok stable) :
    evalSuccess rid sigs = .ok (.dict
      [(.str "contract_version", .int 3),
       (.str "component", .str "dqsn"),
       (.str "request_id", .str rid),
       (.str "context_hash", .str (canonical_sha256 (.dict
         [(.str "component", .str "dqsn"),
          (.str "contract_version", .int 3),
          (.str "request_id", .str rid),
          (.str "signals", .list stable),
          (.str "decision", .str (aggregateDecision (keptSignals sigs))),
          (.str "reason_codes", .list
            ((reasonCodesFromDecision (aggregateDecision (keptSignals sigs)) ++
              collectUpstreamReasonCodes (keptSignals sigs)).map .str))]))),
       (.str "decision", .str (aggregateDecision (keptSignals sigs))),
       (.str "risk", riskFromDecision (aggregateDecision (keptSignals sigs))),
       (.str "reason_codes", .list
         ((reasonCodesFromDecision (aggregateDecision (keptSignals sigs)) ++
           collectUpstreamReasonCodes (keptSignals sigs)).map .str)),
       (.str "evidence", .dict
         [(.str "dedup", .dict
           [(.str "input_signals", .int sigs.length),
            (.str "unique_signals", .int (dedupByHash sigs).length)]),
          (.str "signals", .list stable)]),
       (.str "meta", .dict
         [(.str "latency_ms", .int 0), (.str "fail_closed", .bool true)])]) := by
  simp only [evalSuccess]
  rw [show stableSort sigKeyLe ((dedupByHash sigs).map (·.2)) = keptSignals sigs from rfl]
  simp [h, bind, Except.bind]

/-- The embedded rollup agrees with the spec-side rollup wording over the
normalised kept decisions. -/
theorem aggregateDecision_eq_spec (l : List PyVal) :
    aggregateDecision l = specRollupDecision (l.map normalizedDecision) := by
  simp [aggregateDecision, specRollupDecision, normalizedDecision, List.any_map,
    Function.comp]

/-- On a well-formed parsed request with valid signals, the post-parse
pipeline runs to the success tail. -/
theorem evalParsed_success {q : DQSNV3Request} (h3 : q.contract_version = 3)
    (hc : q.component = "dqsn") (hlen : q.signals.length ≤ 128)
    (hv : firstInvalid q.signals = .ok Option.none) :
    evalParsed q = evalSuccess q.request_id q.signals := by
  have hmin : min V3_MAX_SIGNALS REQUEST_MAX_SIGNALS = 128 := by
    simp [V3_MAX_SIGNALS, REQUEST_MAX_SIGNALS]
  have hnl : ¬(min V3_MAX_SIGNALS REQUEST_MAX_SIGNALS < q.signals.length) := by
    omega
  unfold evalParsed
  rw [if_neg (by simp [h3]), if_neg (by simp [hc]), if_neg hnl, hv]

/-- The valid signal lists always admit stable views. -/
theorem keptStable_ok {sigs : List PyVal}
    (hv : firstInvalid sigs = .ok Option.none) :
    ∃ stable, stableSignals (keptSignals sigs) = .ok stable :=
  stableSignals_ok (fun s hs =>
    validate_ok_stableSignal (firstInvalid_all hv s (keptSignals_mem hs)))

/-! ## Claim theorems -/

/-- C1 (counterexample): the kept set of `reqErrorSig` is one signal whose
decision is `ERROR`, yet the response decision is `BLOCK`, not `ERROR` as the
claim's severity rollup demands (the code folds `ERROR` into `BLOCK`). -/
theorem c1_error_rolls_to_block_counterexample :
    (keptSignals [sigError]).map normalizedDecision = ["ERROR"] ∧
    (evaluate reqErrorSig).map (fun resp => resp.getStr "decision") =
      .ok (some (.str "BLOCK")) ∧
    "BLOCK" ≠ "ERROR" := by
  refine ⟨by decide, by decide, by decide⟩

/-- C1 (amended): for every valid request the response decision follows the
monotone rollup with `ERROR` and `BLOCK` both mapped to `BLOCK`: if any kept
signal's decision is `ERROR` or `BLOCK` the response decision is `BLOCK`,
else if any is `WARN` it is `ESCALATE`, else `ALLOW`. -/
theorem c1_rollup_decision (r : PyVal) (q : DQSNV3Request)
    (h : from_dict r = .ok q) (h3 : q.contract_version = 3)
    (hc : q.component = "dqsn") (hlen : q.signals.length ≤ 128)
    (hv : firstInvalid q.signals = .ok Option.none) :
    (evaluate r).map (fun resp => resp.getStr "decision") =
      .ok (some (.str (specRollupDecision
        ((keptSignals q.signals).map normalizedDecision)))) := by
  obtain ⟨stable, hst⟩ := keptStable_ok hv
  rw [evaluate_eq_parsed h, evalParsed_success h3 hc hlen hv, evalSuccess_eq hst,
    aggregateDecision_eq_spec]
  rfl

/-- C1 (witness): the amended rollup theorem applied to a concrete valid
request carrying one `WARN` signal. -/
theorem c1_rollup_decision_witness :
    (evaluate reqWarn).map (fun resp => resp.getStr "decision") =
      .ok (some (.str (specRollupDecision
        ((keptSignals [sigWarn]).map normalizedDecision)))) ∧
    specRollupDecision ((keptSignals [sigWarn]).map normalizedDecision) =
      "ESCALATE" := by
  refine ⟨?_, by decide⟩
  exact c1_rollup_decision reqWarn
    ⟨3, "dqsn", "rq1", [sigWarn], ⟨true, 2500⟩⟩
    (by decide) rfl rfl (by decide) (by decide)

/-- The rollup decision takes one of three values. -/
theorem specRollup_cases (l : List String) :
    specRollupDecision l = "ALLOW" ∨ specRollupDecision l = "ESCALATE" ∨
      specRollupDecision l = "BLOCK" := by
  unfold specRollupDecision
  split_ifs <;> simp

/-- The risk envelope of the code is the spec-side decision-indexed risk on
every decision the rollup can produce. -/
theorem riskFromDecision_eq_spec (l : List String) :
    riskFromDecision (specRollupDecision l) =
      specRiskForDecision (specRollupDecision l) := by
  rcases specRollup_cases l with h | h | h <;> rw [h] <;> rfl

/-- The code's primary reason-code list is the singleton spec outcome code on
every decision the rollup can produce. -/
theorem reasonCodes_eq_outcome (l : List String) :
    reasonCodesFromDecision (specRollupDecision l) =
      [specOutcomeCode (specRollupDecision l)] := by
  rcases specRollup_cases l with h | h | h <;> rw [h] <;> rfl

/-- C2 (counterexample): for a request whose single kept signal is `WARN`
with score 0.9, the claim demands `risk.score = 0.9` (the kept maximum) and
tier `CRITICAL` (0.9 ≥ 0.85), but the response carries the constant
`{0.5, MEDIUM}` derived from the `ESCALATE` decision. -/
theorem c2_risk_counterexample :
    (evaluate reqWarnHigh).map (fun resp => resp.getStr "risk") =
      .ok (some (.dict [(.str "score", .float (.finite ⟨1, 2⟩)),
                        (.str "tier", .str "MEDIUM")])) ∧
    specMaxScore (keptSignals [sigWarnHigh]) = ⟨9, 10⟩ ∧
    specTierFor ⟨9, 10⟩ = "CRITICAL" ∧
    PyRat.lt ⟨1, 2⟩ ⟨9, 10⟩ = true := by
  refine ⟨by decide, by decide, by decide, by decide⟩

/-- C2 (amended): for every valid request the response risk is the constant
pair determined by the rollup decision alone — `ALLOW ↦ {0.0, LOW}`,
`ESCALATE ↦ {0.5, MEDIUM}`, `BLOCK ↦ {1.0, HIGH}` — not the kept maximum. -/
theorem c2_risk_from_decision (r : PyVal) (q : DQSNV3Request)
    (h : from_dict r = .ok q) (h3 : q.contract_version = 3)
    (hc : q.component = "dqsn") (hlen : q.signals.length ≤ 128)
    (hv : firstInvalid q.signals = .ok Option.none) :
    (evaluate r).map (fun resp => resp.getStr "risk") =
      .ok (some (specRiskForDecision (specRollupDecision
        ((keptSignals q.signals).map normalizedDecision)))) := by
  obtain ⟨stable, hst⟩ := keptStable_ok hv
  rw [evaluate_eq_parsed h, evalParsed_success h3 hc hlen hv, evalSuccess_eq hst,
    aggregateDecision_eq_spec, riskFromDecision_eq_spec]
  rfl

/-- C2 (witness): the amended risk theorem at a concrete valid request. -/
theorem c2_risk_from_decision_witness :
    (evaluate reqWarnHigh).map (fun resp => resp.getStr "risk") =
      .ok (some (specRiskForDecision (specRollupDecision
        ((keptSignals [sigWarnHigh]).map normalizedDecision)))) ∧
    specRiskForDecision (specRollupDecision
        ((keptSignals [sigWarnHigh]).map normalizedDecision)) =
      .dict [(.str "score", .float (.finite ⟨1, 2⟩)), (.str "tier", .str "MEDIUM")] := by
  refine ⟨?_, by decide⟩
  exact c2_risk_from_decision reqWarnHigh
    ⟨3, "dqsn", "rq1", [sigWarnHigh], ⟨true, 2500⟩⟩
    (by decide) rfl rfl (by decide) (by decide)

/-- C4 (counterexample): a valid request with one kept `WARN` signal yields
`reason_codes = [DQSN_ESCALATE_WARN, "W1"]`; the claim requires the entry
after the outcome code to be `DQSN_OK_SIGNAL_AGGREGATED` whenever the kept
set is non-empty, but that code is never emitted (it does not even exist in
the code's `ReasonCode` enum). -/
theorem c4_no_aggregated_code_counterexample :
    (evaluate reqWarn).map (fun resp => resp.getStr "reason_codes") =
      .ok (some (.list [.str RC_ESCALATE_WARN, .str "W1"])) ∧
    (keptSignals [sigWarn]).length = 1 ∧
    "W1" ≠ "DQSN_OK_SIGNAL_AGGREGATED" := by
  refine ⟨by decide, by decide, by decide⟩

/-- C4 (amended): for every valid request the response `reason_codes` is
exactly one outcome code matching the decision followed by the sorted-unique
suffix of deduplicated upstream codes; no `DQSN_OK_SIGNAL_AGGREGATED` marker
is inserted. -/
theorem c4_reason_codes (r : PyVal) (q : DQSNV3Request)
    (h : from_dict r = .ok q) (h3 : q.contract_version = 3)
    (hc : q.component = "dqsn") (hlen : q.signals.length ≤ 128)
    (hv : firstInvalid q.signals = .ok Option.none) :
    (evaluate r).map (fun resp => resp.getStr "reason_codes") =
      .ok (some (.list
        ((specOutcomeCode (specRollupDecision
            ((keptSignals q.signals).map normalizedDecision)) ::
          specUpstreamSuffix (keptSignals q.signals)).map .str))) := by
  obtain ⟨stable, hst⟩ := keptStable_ok hv
  rw [evaluate_eq_parsed h, evalParsed_success h3 hc hlen hv, evalSuccess_eq hst,
    aggregateDecision_eq_spec, reasonCodes_eq_outcome]
  rfl

/-- C4 (witness): the amended reason-code theorem at a concrete valid
request. -/
theorem c4_reason_codes_witness :
    (evaluate reqWarn).map (fun resp => resp.getStr "reason_codes") =
      .ok (some (.list
        ((specOutcomeCode (specRollupDecision
            ((keptSignals [sigWarn]).map normalizedDecision)) ::
          specUpstreamSuffix (keptSignals [sigWarn])).map .str))) ∧
    specUpstreamSuffix (keptSignals [sigWarn]) = ["W1"] := by
  refine ⟨?_, by decide⟩
  exact c4_reason_codes reqWarn
    ⟨3, "dqsn", "rq1", [sigWarn], ⟨true, 2500⟩⟩
    (by decide) rfl rfl (by decide) (by decide)

/-- C5 (code bug): `evaluate` of a mapping whose `signals` field is the
integer 7 raises `TypeError`: the `except ValueError` handler evaluates
`len(request.get("signals", []))` on the unvalidated value.  The spec
promises that nothing escapes `evaluate`. -/
theorem c5_signals_int_raises :
    evaluate reqSignalsInt = .error .typeError := by decide

/-- Every ERROR envelope carries the deterministic meta pair. -/
theorem errorEnvelope_meta (a b : String) (c d e : Int) :
    (errorEnvelope a b c d e).getStr "meta" =
      some (.dict [(.str "latency_ms", .int c), (.str "fail_closed", .bool true)]) := rfl

/-- Every ERROR envelope echoes its request id. -/
theorem errorEnvelope_rid (a b : String) (c d e : Int) :
    (errorEnvelope a b c d e).getStr "request_id" = some (.str a) := rfl

/-- C8: every response `evaluate` returns — on the success path and on every
ERROR path alike — carries `meta = {latency_ms: 0, fail_closed: true}`. -/
theorem c8_meta_constant (r resp : PyVal) (h : evaluate r = .ok resp) :
    resp.getStr "meta" =
      some (.dict [(.str "latency_ms", .int 0), (.str "fail_closed", .bool true)]) := by
  unfold evaluate at h
  split at h
  next => cases h; rfl
  next =>
    split at h
    next code =>
      split at h
      next e hlen => exact Except.noConfusion h
      next n hlen => cases h; rfl
    next e =>
      split at h
      next e hlen => exact Except.noConfusion h
      next n hlen => cases h; rfl
    next req hreq =>
      unfold evalParsed at h
      split at h
      next => cases h; rfl
      next =>
        split at h
        next => cases h; rfl
        next =>
          split at h
          next => cases h; rfl
          next =>
            split at h
            next e hv => exact Except.noConfusion h
            next reason hv => cases h; rfl
            next hv =>
              simp only [evalSuccess, bind, Except.bind] at h
              split at h
              next e hst => exact Except.noConfusion h
              next stable hst => cases h; rfl

/-- C10: whenever `evaluate` returns an ERROR envelope built before the
`request_id` field was validated (the oversize pre-check or a `from_dict`
failure), the reported `request_id` is the input's `request_id` coerced with
`str`, or the literal `"unknown"` for a non-mapping input or an absent or
`None` field. -/
theorem c10_safe_request_id (r resp : PyVal) (h : evaluate r = .ok resp)
    (herr : MAX_PAYLOAD_BYTES < encodedSizeBytes r ∨ ∃ e, from_dict r = .error e) :
    resp.getStr "request_id" = some (.str (specSafeRequestId r)) := by
  unfold evaluate at h
  split at h
  next => cases h; rfl
  next hsize =>
    split at h
    next code =>
      split at h
      next e hlen => exact Except.noConfusion h
      next n hlen => cases h; rfl
    next e =>
      split at h
      next e hlen => exact Except.noConfusion h
      next n hlen => cases h; rfl
    next req hreq =>
      rcases herr with hbig | ⟨e, he⟩
      · exact absurd hbig hsize
      · rw [hreq] at he
        exact Except.noConfusion he

/-- C10 (witness): a request rejected for an unknown top-level key whose
`request_id` is the integer 5 reports the coerced string `"5"`. -/
theorem c10_safe_request_id_witness :
    (∃ resp, evaluate reqIntRid = .ok resp ∧
      resp.getStr "request_id" = some (.str (specSafeRequestId reqIntRid))) ∧
    specSafeRequestId reqIntRid = "5" := by
  refine ⟨?_, by decide⟩
  have h : evaluate reqIntRid = .ok (errorEnvelope "5" RC_UNKNOWN_TOP_LEVEL_KEY 0 0 0) := by
    decide
  exact ⟨_, h, c10_safe_request_id reqIntRid _ h
    (Or.inr ⟨.valueError RC_UNKNOWN_TOP_LEVEL_KEY, by decide⟩)⟩

/-- C8 (witness): the meta invariant at a concrete success-path response and
the concrete envelope value. -/
theorem c8_meta_constant_witness :
    ∃ resp, evaluate reqWarn = .ok resp ∧
      resp.getStr "meta" =
        some (.dict [(.str "latency_ms", .int 0), (.str "fail_closed", .bool true)]) := by
  cases hev : evaluate reqWarn with
  | error e =>
    have hok : (evaluate reqWarn).isOk = true := by decide
    rw [hev] at hok
    exact absurd hok (by simp [Except.isOk, Except.toBool])
  | ok resp =>
    exact ⟨resp, rfl, c8_meta_constant reqWarn resp hev⟩

/-- The score-tail validator only reports `BAD_NUMBER` or `SIGNAL_INVALID`. -/
theorem validateScoreTail_codes {q : PyRat} {fin : Bool} {tier : PyVal}
    {kvs : List (PyVal × PyVal)} {c : String}
    (h : validateScoreTail q fin tier kvs = .ok (some c)) :
    c = RC_BAD_NUMBER ∨ c = RC_SIGNAL_INVALID := by
  unfold validateScoreTail at h
  repeat' split at h
  all_goals simp_all

/-- The per-signal re-validator only reports `BAD_NUMBER` or
`SIGNAL_INVALID`. -/
theorem validateUpstreamSignal_codes {s : PyVal} {c : String}
    (h : validateUpstreamSignal s = .ok (some c)) :
    c = RC_BAD_NUMBER ∨ c = RC_SIGNAL_INVALID := by
  match s with
  | .dict kvs =>
    simp only [validateUpstreamSignal] at h
    repeat' split at h
    all_goals first
      | exact validateScoreTail_codes h
      | simp_all
  | .none => simp [validateUpstreamSignal] at h; exact Or.inr h.symm
  | .bool _ => simp [validateUpstreamSignal] at h; exact Or.inr h.symm
  | .int _ => simp [validateUpstreamSignal] at h; exact Or.inr h.symm
  | .float _ => simp [validateUpstreamSignal] at h; exact Or.inr h.symm
  | .str _ => simp [validateUpstreamSignal] at h; exact Or.inr h.symm
  | .list _ => simp [validateUpstreamSignal] at h; exact Or.inr h.symm

/-- The signal-validation loop only reports `BAD_NUMBER` or
`SIGNAL_INVALID`. -/
theorem firstInvalid_codes {sigs : List PyVal} {c : String}
    (h : firstInvalid sigs = .ok (some c)) :
    c = RC_BAD_NUMBER ∨ c = RC_SIGNAL_INVALID := by
  induction sigs with
  | nil => simp [firstInvalid] at h
  | cons s rest ih =>
    unfold firstInvalid at h
    split at h
    next e hv => exact Except.noConfusion h
    next r hv =>
      cases h
      exact validateUpstreamSignal_codes (by simpa using hv)
    next hv => exact ih h

/-- The primary reason-code list is always one of three outcome singletons. -/
theorem reasonCodesFromDecision_cases (d : String) :
    reasonCodesFromDecision d = [RC_OK_ALLOW] ∨
    reasonCodesFromDecision d = [RC_ESCALATE_WARN] ∨
    reasonCodesFromDecision d = [RC_DENY_BLOCK] := by
  dsimp only [reasonCodesFromDecision]
  split_ifs <;> simp

/-- C6 (amended): the effective signal cap is 128, not 256.  For every
request that parses (hence has at most 256 signals) with the right contract
version and component, the response's primary reason code is
`DQSN_ERROR_SIGNAL_TOO_MANY` exactly when more than 128 signals were sent;
and independently, any request passing the checks that precede the length
check with more than 256 signals is also rejected with
`DQSN_ERROR_SIGNAL_TOO_MANY` (raised by `from_dict` itself). -/
theorem c6_signal_cap :
    (∀ (r : PyVal) (q : DQSNV3Request), from_dict r = .ok q →
      q.contract_version = 3 → q.component = "dqsn" →
      (firstReason (evaluate r) = some RC_SIGNAL_TOO_MANY ↔
        128 < q.signals.length)) ∧
    (∀ (kvs : List (PyVal × PyVal)) (sigs : List PyVal) (compS ridS : String),
      kvs.any (fun kv => !topLevelKeyOk kv.1) = false →
      pyIsInstInt ((getKV kvs "contract_version").getD .none) = true →
      (getKV kvs "component").getD .none = .str compS →
      (pyTrim compS).isEmpty = false →
      (getKV kvs "request_id").getD .none = .str ridS →
      (pyTrim ridS).isEmpty = false →
      (getKV kvs "signals").getD .none = .list sigs →
      REQUEST_MAX_SIGNALS < sigs.length →
      encodedSizeBytes (.dict kvs) ≤ MAX_PAYLOAD_BYTES →
      firstReason (evaluate (.dict kvs)) = some RC_SIGNAL_TOO_MANY) := by
  constructor
  · intro r q h h3 hc
    rw [evaluate_eq_parsed h]
    constructor
    · intro hfr
      by_contra hlen
      push_neg at hlen
      have hred : evalParsed q = match firstInvalid q.signals with
          | .error e => .error e
          | .ok (some reason) =>
            .ok (errorEnvelope q.request_id reason 0 q.signals.length 0)
          | .ok Option.none => evalSuccess q.request_id q.signals := by
        unfold evalParsed
        rw [if_neg (by simp [h3]), if_neg (by simp [hc]),
          if_neg (by simp [V3_MAX_SIGNALS, REQUEST_MAX_SIGNALS]; omega)]
      cases hfi : firstInvalid q.signals with
      | error e =>
        rw [hred, hfi] at hfr
        simp [firstReason] at hfr
      | ok o =>
        cases o with
        | some reason =>
          rw [hred, hfi] at hfr
          dsimp only [] at hfr
          simp only [firstReason, errorEnvelope, PyVal.getStr, getKV,
            if_pos, if_neg] at hfr
          rcases firstInvalid_codes hfi with h' | h' <;>
            simp_all [RC_BAD_NUMBER, RC_SIGNAL_INVALID, RC_SIGNAL_TOO_MANY]
        | none =>
          obtain ⟨stable, hst⟩ := keptStable_ok hfi
          rw [hred, hfi] at hfr
          dsimp only [] at hfr
          rw [evalSuccess_eq hst] at hfr
          rcases reasonCodesFromDecision_cases
              (aggregateDecision (keptSignals q.signals)) with h' | h' | h' <;>
            rw [h'] at hfr <;>
            simp [firstReason, PyVal.getStr, getKV, RC_OK_ALLOW, RC_ESCALATE_WARN,
              RC_DENY_BLOCK, RC_SIGNAL_TOO_MANY] at hfr
    · intro hlen
      unfold evalParsed
      rw [if_neg (by simp [h3]), if_neg (by simp [hc]),
        if_pos (by simp [V3_MAX_SIGNALS, REQUEST_MAX_SIGNALS]; omega)]
      rfl
  · intro kvs sigs compS ridS hkeys hcv hcomp hcompE hrid hridE hsigs hlen hsize
    have hfd : from_dict (.dict kvs) = .error (.valueError RC_SIGNAL_TOO_MANY) := by
      simp only [from_dict]
      rw [if_neg (by simp [hkeys]), if_neg (by simp [hcv]), hcomp, hrid]
      dsimp only []
      rw [if_neg (by simp [hcompE]), if_neg (by simp [hridE]), hsigs]
      dsimp only []
      rw [if_pos hlen]
    have hsigGet : getKV kvs "signals" = some (.list sigs) := by
      cases hget : getKV kvs "signals" with
      | none => rw [hget] at hsigs; simp at hsigs
      | some v =>
        rw [hget] at hsigs
        simp only [Option.getD_some] at hsigs
        rw [hsigs]
    unfold evaluate
    rw [if_neg (by omega), hfd]
    simp only [inputSignalsLen, hsigGet, pyLen]
    rfl

/-- Every walk node costs at least one pop. -/
theorem pyNodes_pos (x : PyVal) : 1 ≤ pyNodes x := by
  cases x <;> simp [pyNodes]

theorem pyNodesList_append (a b : List PyVal) :
    pyNodesList (a ++ b) = pyNodesList a + pyNodesList b := by
  induction a with
  | nil => simp [pyNodesList]
  | cons x xs ih => simp [pyNodesList, ih]; omega

theorem pyNodesList_reverse (a : List PyVal) :
    pyNodesList a.reverse = pyNodesList a := by
  induction a with
  | nil => rfl
  | cons x xs ih => simp [pyNodesList, pyNodesList_append, ih]; omega

theorem hasNonFiniteList_append (a b : List PyVal) :
    hasNonFiniteList (a ++ b) = (hasNonFiniteList a || hasNonFiniteList b) := by
  induction a with
  | nil => simp [hasNonFiniteList]
  | cons x xs ih => simp [hasNonFiniteList, ih, Bool.or_assoc]

theorem hasNonFiniteList_reverse (a : List PyVal) :
    hasNonFiniteList a.reverse = hasNonFiniteList a := by
  induction a with
  | nil => rfl
  | cons x xs ih =>
    simp [hasNonFiniteList, hasNonFiniteList_append, ih, Bool.or_comm]

theorem smallIntsList_append (a b : List PyVal) :
    smallIntsList (a ++ b) = (smallIntsList a && smallIntsList b) := by
  induction a with
  | nil => simp [smallIntsList]
  | cons x xs ih => simp [smallIntsList, ih, Bool.and_assoc]

theorem smallIntsList_reverse (a : List PyVal) :
    smallIntsList a.reverse = smallIntsList a := by
  induction a with
  | nil => rfl
  | cons x xs ih =>
    simp [smallIntsList, smallIntsList_append, ih, Bool.and_comm]

/-- `_is_finite_number` under the overflow bound: it reports exactly whether
the node is a non-finite float. -/
theorem topNonFinite_hasNonFinite {v : PyVal} (h : topNonFinite v = true) :
    hasNonFinite v = true := by
  match v with
  | .float .nan => rfl
  | .float .inf => rfl
  | .float .ninf => rfl
  | .float (.finite q) => simp [topNonFinite] at h
  | .none => simp [topNonFinite] at h
  | .bool _ => simp [topNonFinite] at h
  | .int _ => simp [topNonFinite] at h
  | .str _ => simp [topNonFinite] at h
  | .list _ => simp [topNonFinite] at h
  | .dict _ => simp [topNonFinite] at h

theorem isFiniteNumber_eq {x : PyVal} (hs : smallInts x = true ∨
    (match x with | .int _ => False | _ => True)) :
    isFiniteNumber x = .ok (!topNonFinite x) := by
  match x with
  | .none => rfl
  | .bool _ => rfl
  | .str _ => rfl
  | .list _ => rfl
  | .dict _ => rfl
  | .float (.finite q) => rfl
  | .float .nan => rfl
  | .float .inf => rfl
  | .float .ninf => rfl
  | .int n => simp_all [isFiniteNumber, topNonFinite, smallInts]

/-- Characterisation of one dict scan in the hygiene walk. -/
theorem scanKVs_char (kvs : List (PyVal × PyVal)) (hs : smallIntsKVs kvs = true) :
    (scanKVs kvs = .ok Option.none ∧ hasNonFiniteKVs kvs = true) ∨
    (∃ pushed, scanKVs kvs = .ok (some pushed) ∧
      pyNodesList pushed = pyNodesKVs kvs ∧
      hasNonFiniteList pushed = hasNonFiniteKVs kvs ∧
      smallIntsList pushed = true) := by
  induction kvs with
  | nil =>
    right
    exact ⟨[], rfl, rfl, rfl, rfl⟩
  | cons kv rest ih =>
    obtain ⟨k, v⟩ := kv
    simp only [smallIntsKVs, Bool.and_eq_true] at hs
    obtain ⟨⟨hk, hv⟩, hrest⟩ := hs
    have hkf : isFiniteNumber k = .ok (!topNonFinite k) :=
      isFiniteNumber_eq (Or.inl hk)
    have hvf : isFiniteNumber v = .ok (!topNonFinite v) :=
      isFiniteNumber_eq (Or.inl hv)
    by_cases htk : topNonFinite k = true
    · left
      constructor
      · simp [scanKVs, hkf, htk, bind, Except.bind, pure, Except.pure]
      · simp [hasNonFiniteKVs, topNonFinite_hasNonFinite htk]
    · by_cases htv : topNonFinite v = true
      · left
        constructor
        · simp [scanKVs, hkf, hvf, htk, htv, bind, Except.bind, pure, Except.pure]
        · simp [hasNonFiniteKVs, topNonFinite_hasNonFinite htv]
      · rcases ih hrest with ⟨hsc, hbad⟩ | ⟨pushed, hsc, hn, hb, hsm⟩
        · left
          constructor
          · simp [scanKVs, hkf, hvf, htk, htv, hsc, bind, Except.bind, pure, Except.pure]
          · simp [hasNonFiniteKVs, hbad]
        · right
          refine ⟨k :: v :: pushed, ?_, ?_, ?_, ?_⟩
          · simp [scanKVs, hkf, hvf, htk, htv, hsc, bind, Except.bind, pure, Except.pure]
          · simp [pyNodesList, pyNodesKVs, hn]; omega
          · simp [hasNonFiniteList, hasNonFiniteKVs, hb, Bool.or_assoc]
          · simp [smallIntsList, hk, hv, hsm]

/-- Characterisation of one list scan in the hygiene walk. -/
theorem scanList_char (xs : List PyVal) (hs : smallIntsList xs = true) :
    (scanList xs = .ok Option.none ∧ hasNonFiniteList xs = true) ∨
    (∃ pushed, scanList xs = .ok (some pushed) ∧
      pyNodesList pushed = pyNodesList xs ∧
      hasNonFiniteList pushed = hasNonFiniteList xs ∧
      smallIntsList pushed = true) := by
  induction xs with
  | nil =>
    right
    exact ⟨[], rfl, rfl, rfl, rfl⟩
  | cons v rest ih =>
    simp only [smallIntsList, Bool.and_eq_true] at hs
    obtain ⟨hv, hrest⟩ := hs
    have hvf : isFiniteNumber v = .ok (!topNonFinite v) :=
      isFiniteNumber_eq (Or.inl hv)
    by_cases htv : topNonFinite v = true
    · left
      constructor
      · simp [scanList, hvf, htv, bind, Except.bind, pure, Except.pure]
      · simp [hasNonFiniteList, topNonFinite_hasNonFinite htv]
    · rcases ih hrest with ⟨hsc, hbad⟩ | ⟨pushed, hsc, hn, hb, hsm⟩
      · left
        constructor
        · simp [scanList, hvf, htv, hsc, bind, Except.bind, pure, Except.pure]
        · simp [hasNonFiniteList, hbad]
      · right
        refine ⟨v :: pushed, ?_, ?_, ?_, ?_⟩
        · simp [scanList, hvf, htv, hsc, bind, Except.bind, pure, Except.pure]
        · simp [pyNodesList, hn]
        · simp [hasNonFiniteList, hb]
        · simp [smallIntsList, hv, hsm]

/-- Characterisation of the hygiene walk under the node cap: within budget
it reports exactly whether a non-finite number occurs anywhere. -/
theorem walkLoop_char : ∀ (fuel : Nat) (stack : List PyVal),
    smallIntsList stack = true →
    pyNodesList stack ≤ fuel →
    walkLoop stack fuel =
      .ok (if hasNonFiniteList stack = true then some RC_BAD_NUMBER
           else Option.none) := by
  intro fuel
  induction fuel with
  | zero =>
    intro stack hs hn
    cases stack with
    | nil => rfl
    | cons x rest =>
      have := pyNodes_pos x
      simp [pyNodesList] at hn
      omega
  | succ fuel ih =>
    intro stack hs hn
    cases stack with
    | nil => rfl
    | cons cur rest =>
      simp only [smallIntsList, Bool.and_eq_true] at hs
      obtain ⟨hcur, hrest⟩ := hs
      simp only [pyNodesList] at hn
      match cur with
      | .dict kvs =>
        rcases scanKVs_char kvs (by simpa [smallInts] using hcur) with
          ⟨hsc, hbad⟩ | ⟨pushed, hsc, hpn, hpb, hpm⟩
        · rw [show walkLoop (PyVal.dict kvs :: rest) (fuel + 1) =
              .ok (some RC_BAD_NUMBER) from by
            simp [walkLoop, hsc]]
          have : hasNonFinite (PyVal.dict kvs) = true := by
            simpa [hasNonFinite] using hbad
          simp [hasNonFiniteList, this]
        · rw [show walkLoop (PyVal.dict kvs :: rest) (fuel + 1) =
              walkLoop (pushed.reverse ++ rest) fuel from by
            simp [walkLoop, hsc]]
          rw [ih (pushed.reverse ++ rest)
            (by simp [smallIntsList_append, smallIntsList_reverse, hpm, hrest])
            (by
              rw [pyNodesList_append, pyNodesList_reverse, hpn]
              simp only [pyNodes] at hn
              omega)]
          rw [hasNonFiniteList_append, hasNonFiniteList_reverse, hpb]
          simp [hasNonFiniteList, hasNonFinite]
      | .list xs =>
        rcases scanList_char xs (by simpa [smallInts] using hcur) with
          ⟨hsc, hbad⟩ | ⟨pushed, hsc, hpn, hpb, hpm⟩
        · rw [show walkLoop (PyVal.list xs :: rest) (fuel + 1) =
              .ok (some RC_BAD_NUMBER) from by
            simp [walkLoop, hsc]]
          have : hasNonFinite (PyVal.list xs) = true := by
            simpa [hasNonFinite] using hbad
          simp [hasNonFiniteList, this]
        · rw [show walkLoop (PyVal.list xs :: rest) (fuel + 1) =
              walkLoop (pushed.reverse ++ rest) fuel from by
            simp [walkLoop, hsc]]
          rw [ih (pushed.reverse ++ rest)
            (by simp [smallIntsList_append, smallIntsList_reverse, hpm, hrest])
            (by
              rw [pyNodesList_append, pyNodesList_reverse, hpn]
              simp only [pyNodes] at hn
              omega)]
          rw [hasNonFiniteList_append, hasNonFiniteList_reverse, hpb]
          simp [hasNonFiniteList, hasNonFinite]
      | .none =>
        rw [show walkLoop (PyVal.none :: rest) (fuel + 1) =
            walkLoop rest fuel from by simp [walkLoop, isFiniteNumber]]
        rw [ih rest hrest (by simp [pyNodes] at hn; omega)]
        simp [hasNonFiniteList, hasNonFinite]
      | .bool b =>
        rw [show walkLoop (PyVal.bool b :: rest) (fuel + 1) =
            walkLoop rest fuel from by simp [walkLoop, isFiniteNumber]]
        rw [ih rest hrest (by simp [pyNodes] at hn; omega)]
        simp [hasNonFiniteList, hasNonFinite]
      | .str s =>
        rw [show walkLoop (PyVal.str s :: rest) (fuel + 1) =
            walkLoop rest fuel from by simp [walkLoop, isFiniteNumber]]
        rw [ih rest hrest (by simp [pyNodes] at hn; omega)]
        simp [hasNonFiniteList, hasNonFinite]
      | .int n =>
        rw [show walkLoop (PyVal.int n :: rest) (fuel + 1) =
            walkLoop rest fuel from by
          have : intFloatOverflows n = false := by
            simpa [smallInts] using hcur
          simp [walkLoop, isFiniteNumber, this]]
        rw [ih rest hrest (by simp [pyNodes] at hn; omega)]
        simp [hasNonFiniteList, hasNonFinite]
      | .float f =>
        cases f with
        | finite q =>
          rw [show walkLoop (PyVal.float (.finite q) :: rest) (fuel + 1) =
              walkLoop rest fuel from by simp [walkLoop, isFiniteNumber]]
          rw [ih rest hrest (by simp [pyNodes] at hn; omega)]
          simp [hasNonFiniteList, hasNonFinite]
        | nan =>
          rw [show walkLoop (PyVal.float .nan :: rest) (fuel + 1) =
              .ok (some RC_BAD_NUMBER) from by simp [walkLoop, isFiniteNumber]]
          simp [hasNonFiniteList, hasNonFinite]
        | inf =>
          rw [show walkLoop (PyVal.float .inf :: rest) (fuel + 1) =
              .ok (some RC_BAD_NUMBER) from by simp [walkLoop, isFiniteNumber]]
          simp [hasNonFiniteList, hasNonFinite]
        | ninf =>
          rw [show walkLoop (PyVal.float .ninf :: rest) (fuel + 1) =
              .ok (some RC_BAD_NUMBER) from by simp [walkLoop, isFiniteNumber]]
          simp [hasNonFiniteList, hasNonFinite]

/-- The hygiene walk of a whole value under the node cap. -/
theorem walkCheckFinite_char {obj : PyVal} {maxNodes : Nat}
    (hs : smallInts obj = true) (hn : pyNodes obj ≤ maxNodes) :
    walkCheckFinite obj maxNodes =
      .ok (if hasNonFinite obj = true then some RC_BAD_NUMBER
           else Option.none) := by
  unfold walkCheckFinite
  rw [walkLoop_char maxNodes [obj]
    (by simp [smallIntsList, hs]) (by simp [pyNodesList]; omega)]
  simp [hasNonFiniteList]

/-- The `signals` entry of a dict whose `.getD` default is not a list. -/
theorem getKV_of_getD_list {kvs : List (PyVal × PyVal)} {k : String}
    {sigs : List PyVal}
    (h : (getKV kvs k).getD .none = .list sigs) :
    getKV kvs k = some (.list sigs) := by
  cases hget : getKV kvs k with
  | none => rw [hget] at h; simp at h
  | some v =>
    rw [hget] at h
    simp only [Option.getD_some] at h
    rw [h]

/-- C7 (amended): for every request that passes the structural checks
preceding the numeric hygiene walk (mapping shape, allowed top-level keys,
integer contract version, non-empty component and request id, at most 256
signals, canonical size within the 500 KB limit), whose tree stays within
the 50 000-node traversal cap, and all of whose ints stay below the
`float()` overflow bound `2^1024 - 2^970` (see `smallInts`), the presence of
any NaN or ±Infinity float yields an ERROR response with reason code
`DQSN_ERROR_BAD_NUMBER` and risk `{score: 1.0, tier: CRITICAL}`.  Booleans
are not numbers for this check.  The int bound is a real precondition, not a
modelling convenience: past it, `math.isfinite` raises `OverflowError`
before any NaN is reached and the reason code becomes
`DQSN_ERROR_INVALID_REQUEST` (see the counterexample). -/
theorem c7_bad_number (kvs : List (PyVal × PyVal)) (sigs : List PyVal)
    (compS ridS canonical : String)
    (hkeys : kvs.any (fun kv => !topLevelKeyOk kv.1) = false)
    (hcv : pyIsInstInt ((getKV kvs "contract_version").getD .none) = true)
    (hcomp : (getKV kvs "component").getD .none = .str compS)
    (hcompE : (pyTrim compS).isEmpty = false)
    (hrid : (getKV kvs "request_id").getD .none = .str ridS)
    (hridE : (pyTrim ridS).isEmpty = false)
    (hsigs : (getKV kvs "signals").getD .none = .list sigs)
    (hslen : sigs.length ≤ REQUEST_MAX_SIGNALS)
    (hjson : canonicalJson (.dict kvs) = .ok canonical)
    (hbytes : utf8Len canonical ≤ MAX_REQUEST_BYTES)
    (hsmall : smallInts (.dict kvs) = true)
    (hnodes : pyNodes (.dict kvs) ≤ MAX_REQUEST_NODES)
    (hbad : hasNonFinite (.dict kvs) = true) :
    (evaluate (.dict kvs)).map
        (fun resp => (resp.getStr "reason_codes", resp.getStr "risk")) =
      .ok (some (.list [.str RC_BAD_NUMBER]),
           some (.dict [(.str "score", .float (.finite ⟨1, 1⟩)),
                        (.str "tier", .str "CRITICAL")])) ∧
    (∀ b, hasNonFinite (.bool b) = false) := by
  refine ⟨?_, fun b => rfl⟩
  have hfd : from_dict (.dict kvs) = .error (.valueError RC_BAD_NUMBER) := by
    simp only [from_dict]
    rw [if_neg (by simp [hkeys]), if_neg (by simp [hcv]), hcomp, hrid]
    dsimp only []
    rw [if_neg (by simp [hcompE]), if_neg (by simp [hridE]), hsigs]
    dsimp only []
    rw [if_neg (by omega), hjson]
    dsimp only []
    rw [if_neg (by omega), walkCheckFinite_char hsmall hnodes, if_pos hbad]
  have hsize : encodedSizeBytes (.dict kvs) = utf8Len canonical := by
    unfold encodedSizeBytes
    rw [hjson]
  unfold evaluate
  rw [if_neg (by rw [hsize]; unfold MAX_PAYLOAD_BYTES; unfold MAX_REQUEST_BYTES at hbytes; omega),
    hfd]
  simp only [inputSignalsLen, getKV_of_getD_list hsigs, pyLen]
  rfl

theorem utf8LenGo_acc (l : List Char) (acc : Nat) :
    utf8LenGo l acc = acc + utf8LenGo l 0 := by
  induction l generalizing acc with
  | nil => simp [utf8LenGo]
  | cons c cs ih =>
    rw [utf8LenGo, utf8LenGo, ih (acc + (utf8Bytes c).length),
      ih (0 + (utf8Bytes c).length)]
    omega

theorem utf8Len_append (a b : String) :
    utf8Len (a ++ b) = utf8Len a + utf8Len b := by
  show utf8LenGo (a ++ b).data 0 = utf8LenGo a.data 0 + utf8LenGo b.data 0
  rw [show (a ++ b).data = a.data ++ b.data from String.data_append a b]
  induction a.data with
  | nil => simp [utf8LenGo]
  | cons c cs ih =>
    rw [List.cons_append, utf8LenGo, utf8LenGo, utf8LenGo_acc (cs ++ b.data),
      utf8LenGo_acc cs, ih]
    omega

theorem utf8Len_joinStrings_replicate (sep x : String) :
    ∀ n, utf8Len (joinStrings sep (List.replicate (n + 1) x)) =
      utf8Len x + n * (utf8Len sep + utf8Len x)
  | 0 => by simp [joinStrings]
  | n + 1 => by
    rw [show List.replicate (n + 2) x = x :: List.replicate (n + 1) x from rfl,
      show List.replicate (n + 1) x = x :: List.replicate n x from rfl]
    rw [joinStrings, utf8Len_append, utf8Len_append,
      show (x :: List.replicate n x) = List.replicate (n + 1) x from rfl,
      utf8Len_joinStrings_replicate sep x n]
    ring

theorem canonicalJsonList_replicate {x : PyVal} {sx : String}
    (h : canonicalJson x = .ok sx) :
    ∀ n, canonicalJsonList (List.replicate n x) = .ok (List.replicate n sx)
  | 0 => rfl
  | n + 1 => by
    rw [List.replicate_succ, List.replicate_succ]
    simp [canonicalJsonList, h, canonicalJsonList_replicate h n, bind, Except.bind]

theorem sig129_json : canonicalJson sig129one = .ok sigJson129 := by decide

theorem req129_json : canonicalJson req129 =
    .ok ("\x7b" ++ joinStrings ","
      ["\"component\":\"dqsn\"",
       "\"constraints\":\x7b\x7d",
       "\"contract_version\":3",
       "\"request_id\":\"rq1\"",
       "\"signals\":" ++ ("[" ++ joinStrings "," (List.replicate 129 sigJson129) ++ "]")]
      ++ "\x7d") := by
  have h1 := canonicalJsonList_replicate sig129_json 129
  simp only [req129, mkRequest, sigs129, canonicalJson, canonicalJsonKVs, h1,
    bind, Except.bind]
  rfl

theorem req129_json_size : ∀ {c : String}, canonicalJson req129 = .ok c →
    utf8Len c ≤ MAX_REQUEST_BYTES := by
  intro c hc
  rw [req129_json] at hc
  cases hc
  have hone : utf8Len sigJson129 ≤ 400 := by decide
  have hjoin := utf8Len_joinStrings_replicate "," sigJson129 128
  rw [show (128 + 1 : Nat) = 129 from rfl] at hjoin
  have hc1 : utf8Len "," = 1 := by decide
  rw [hc1] at hjoin
  generalize hJ : joinStrings "," (List.replicate 129 sigJson129) = J at hjoin ⊢
  simp only [joinStrings, utf8Len_append]
  rw [hjoin]
  have h2 : utf8Len "\x7b" = 1 := by decide
  have h3 : utf8Len "\x7d" = 1 := by decide
  have h4 : utf8Len "\"component\":\"dqsn\"" = 18 := by decide
  have h5 : utf8Len "\"constraints\":\x7b\x7d" = 16 := by decide
  have h6 : utf8Len "\"contract_version\":3" = 20 := by decide
  have h7 : utf8Len "\"request_id\":\"rq1\"" = 18 := by decide
  have h8 : utf8Len "\"signals\":" = 10 := by decide
  have h9 : utf8Len "[" = 1 := by decide
  have h10 : utf8Len "]" = 1 := by decide
  rw [h2, h3, h4, h5, h6, h7, h8, h9, h10, hc1]
  unfold MAX_REQUEST_BYTES
  omega

theorem signalsCheckFD_replicate {x : PyVal} (h : signalCheckFD x = .ok ()) :
    ∀ n, signalsCheckFD (List.replicate n x) = .ok ()
  | 0 => rfl
  | n + 1 => by
    rw [List.replicate_succ]
    simp [signalsCheckFD, h, signalsCheckFD_replicate h n, bind, Except.bind]

theorem from_dict_ok_forward {kvs : List (PyVal × PyVal)} {sigs : List PyVal}
    {compS ridS c : String} {conKvs : List (PyVal × PyVal)}
    (hkeys : kvs.any (fun kv => !topLevelKeyOk kv.1) = false)
    (hcv : pyIsInstInt ((getKV kvs "contract_version").getD .none) = true)
    (hcomp : (getKV kvs "component").getD .none = .str compS)
    (hcompE : (pyTrim compS).isEmpty = false)
    (hrid : (getKV kvs "request_id").getD .none = .str ridS)
    (hridE : (pyTrim ridS).isEmpty = false)
    (hsigs : (getKV kvs "signals").getD .none = .list sigs)
    (hlen : sigs.length ≤ REQUEST_MAX_SIGNALS)
    (hjson : canonicalJson (.dict kvs) = .ok c)
    (hsize : utf8Len c ≤ MAX_REQUEST_BYTES)
    (hwalk : walkCheckFinite (.dict kvs) MAX_REQUEST_NODES = .ok Option.none)
    (hsc : signalsCheckFD sigs = .ok ())
    (hcon : (getKV kvs "constraints").getD (.dict []) = .dict conKvs) :
    from_dict (.dict kvs) =
      .ok ⟨pyIntValue ((getKV kvs "contract_version").getD .none),
           pyTrim compS, pyTrim ridS, sigs, parseConstraints conKvs⟩ := by
  simp only [from_dict]
  rw [if_neg (by simp [hkeys]), if_neg (by simp [hcv]), hcomp, hrid]
  dsimp only []
  rw [if_neg (by simp [hcompE]), if_neg (by simp [hridE]), hsigs]
  dsimp only []
  rw [if_neg (by omega), hjson]
  dsimp only []
  rw [if_neg (by omega), hwalk]
  dsimp only []
  rw [hsc]
  dsimp only []
  rw [hcon]

theorem from_dict_req129 : from_dict req129 = .ok q129 := by
  rw [show req129 = PyVal.dict reqKvs129 from rfl]
  exact from_dict_ok_forward
    (by decide) (by decide)
    (show (getKV reqKvs129 "component").getD .none = .str "dqsn" by decide)
    (by decide)
    (show (getKV reqKvs129 "request_id").getD .none = .str "rq1" by decide)
    (by decide)
    (show (getKV reqKvs129 "signals").getD .none = .list sigs129 by decide)
    (by simp [sigs129, REQUEST_MAX_SIGNALS])
    req129_json (req129_json_size req129_json)
    (by
      rw [walkCheckFinite_char (by decide) (by decide)]
      rw [if_neg (by decide)])
    (signalsCheckFD_replicate (by decide) 129)
    (show (getKV reqKvs129 "constraints").getD (.dict []) = .dict [] by decide)

theorem evaluate_req129 :
    evaluate req129 = .ok (errorEnvelope "rq1" RC_SIGNAL_TOO_MANY 0 129 0) := by
  have hsz : encodedSizeBytes req129 ≤ MAX_REQUEST_BYTES := by
    unfold encodedSizeBytes
    rw [req129_json]
    exact req129_json_size req129_json
  unfold evaluate
  rw [if_neg (by
    unfold MAX_PAYLOAD_BYTES
    unfold MAX_REQUEST_BYTES at hsz
    omega)]
  rw [from_dict_req129]
  dsimp only []
  unfold evalParsed
  rw [if_neg (by simp [q129]), if_neg (by simp [q129]),
    if_pos (by simp [q129, sigs129, V3_MAX_SIGNALS, REQUEST_MAX_SIGNALS])]
  simp [q129, sigs129]

/-- C6 (counterexample): a request with 129 structurally valid signals —
within the claimed 256-signal budget and accepted by the parser — is
rejected with `DQSN_ERROR_SIGNAL_TOO_MANY` by the backstop
`min(DQSNV3.MAX_SIGNALS, DQSNV3Request.MAX_SIGNALS) = 128`. -/
theorem c6_129_signals_counterexample :
    from_dict req129 = .ok q129 ∧
    q129.signals.length = 129 ∧
    firstReason (evaluate req129) = some RC_SIGNAL_TOO_MANY ∧
    (129 : Nat) ≤ 256 := by
  refine ⟨from_dict_req129, by simp [q129, sigs129], ?_, by omega⟩
  rw [evaluate_req129]
  rfl

/-- C6 (witness): the amended cap theorem applied at 129 parsed signals
(first conjunct) and at 257 raw signals (second conjunct). -/
theorem c6_signal_cap_witness :
    firstReason (evaluate req129) = some RC_SIGNAL_TOO_MANY ∧
    firstReason (evaluate req257) = some RC_SIGNAL_TOO_MANY := by
  constructor
  · exact (c6_signal_cap.1 req129 q129 from_dict_req129 rfl rfl).mpr
      (by simp [q129, sigs129])
  · exact c6_signal_cap.2
      [(.str "contract_version", .int 3),
       (.str "component", .str "dqsn"),
       (.str "request_id", .str "rq1"),
       (.str "signals", .list ((List.range 257).map (fun i => .int (Int.ofNat i))))]
      ((List.range 257).map (fun i => .int (Int.ofNat i))) "dqsn" "rq1"
      (by decide) (by decide) (by decide) (by decide) (by decide) (by decide)
      (by decide) (by decide) (by decide)

/-- C7 (witness): the hygiene theorem at a concrete request carrying a NaN
risk score. -/
theorem c7_bad_number_witness :
    (evaluate reqNaN).map
        (fun resp => (resp.getStr "reason_codes", resp.getStr "risk")) =
      .ok (some (.list [.str RC_BAD_NUMBER]),
           some (.dict [(.str "score", .float (.finite ⟨1, 1⟩)),
                        (.str "tier", .str "CRITICAL")])) := by
  refine (c7_bad_number
    [(.str "contract_version", .int 3),
     (.str "component", .str "dqsn"),
     (.str "request_id", .str "rq1"),
     (.str "constraints", .dict []),
     (.str "signals", .list [sigNaN])]
    [sigNaN] "dqsn" "rq1"
    (match canonicalJson reqNaN with | .ok s => s | .error _ => "")
    (by decide) (by decide) (by decide) (by decide) (by decide) (by decide)
    (by decide) (by decide) (by decide) (by decide) (by decide) (by decide)
    (by decide)).1

/-! ### Order-theoretic facts about the signal sort -/

/-- `charListLe` is total. -/
theorem charListLe_total : ∀ (a b : List Char),
    charListLe a b = true ∨ charListLe b a = true
  | [], _ => Or.inl rfl
  | _ :: _, [] => Or.inr rfl
  | a :: as, b :: bs => by
    unfold charListLe
    by_cases h1 : a.val < b.val
    · left; rw [if_pos h1]
    · by_cases h2 : b.val < a.val
      · right; rw [if_pos h2]
      · rw [if_neg h1, if_neg h2, if_neg h2, if_neg h1]
        exact charListLe_total as bs

/-- `charListLe` is antisymmetric. -/
theorem charListLe_antisymm : ∀ (a b : List Char),
    charListLe a b = true → charListLe b a = true → a = b
  | [], [], _, _ => rfl
  | [], _ :: _, _, h2 => by simp [charListLe] at h2
  | _ :: _, [], h1, _ => by simp [charListLe] at h1
  | a :: as, b :: bs, h1, h2 => by
    unfold charListLe at h1 h2
    by_cases hab : a.val < b.val
    · have hba : ¬ b.val < a.val := by
        have t : a.val.toNat < b.val.toNat := hab
        show ¬ b.val.toNat < a.val.toNat
        omega
      rw [if_neg hba, if_pos hab] at h2
      exact absurd h2 (by simp)
    · by_cases hba : b.val < a.val
      · rw [if_neg hab, if_pos hba] at h1
        exact absurd h1 (by simp)
      · rw [if_neg hab, if_neg hba] at h1
        rw [if_neg hba, if_neg hab] at h2
        have hv : a = b := Char.ext (UInt32.ext (by
          have t1 : ¬ a.val.toNat < b.val.toNat := hab
          have t2 : ¬ b.val.toNat < a.val.toNat := hba
          omega))
        rw [hv, charListLe_antisymm as bs h1 h2]

/-- `charListLe` is transitive. -/
theorem charListLe_trans : ∀ (a b c : List Char),
    charListLe a b = true → charListLe b c = true → charListLe a c = true
  | [], _, _, _, _ => rfl
  | _ :: _, [], _, h1, _ => by simp [charListLe] at h1
  | _ :: _, _ :: _, [], _, h2 => by simp [charListLe] at h2
  | a :: as, b :: bs, c :: cs, h1, h2 => by
    unfold charListLe at h1 h2 ⊢
    by_cases hba : b.val < a.val
    · rw [if_neg (by
        have t : b.val.toNat < a.val.toNat := hba
        show ¬ a.val.toNat < b.val.toNat
        omega), if_pos hba] at h1
      exact absurd h1 (by simp)
    · by_cases hcb : c.val < b.val
      · rw [if_neg (by
          have t : c.val.toNat < b.val.toNat := hcb
          show ¬ b.val.toNat < c.val.toNat
          omega), if_pos hcb] at h2
        exact absurd h2 (by simp)
      · by_cases hab : a.val < b.val
        · have hac : a.val < c.val := by
            have t1 : a.val.toNat < b.val.toNat := hab
            have t2 : ¬ c.val.toNat < b.val.toNat := hcb
            show a.val.toNat < c.val.toNat
            omega
          rw [if_pos hac]
        · by_cases hbc : b.val < c.val
          · have hac : a.val < c.val := by
              have t1 : ¬ b.val.toNat < a.val.toNat := hba
              have t2 : ¬ a.val.toNat < b.val.toNat := hab
              have t3 : b.val.toNat < c.val.toNat := hbc
              show a.val.toNat < c.val.toNat
              omega
            rw [if_pos hac]
          · have hnac : ¬ a.val < c.val := by
              have t1 : ¬ b.val.toNat < a.val.toNat := hba
              have t2 : ¬ a.val.toNat < b.val.toNat := hab
              have t3 : ¬ c.val.toNat < b.val.toNat := hcb
              have t4 : ¬ b.val.toNat < c.val.toNat := hbc
              show ¬ a.val.toNat < c.val.toNat
              omega
            have hnca : ¬ c.val < a.val := by
              have t1 : ¬ b.val.toNat < a.val.toNat := hba
              have t2 : ¬ a.val.toNat < b.val.toNat := hab
              have t3 : ¬ c.val.toNat < b.val.toNat := hcb
              have t4 : ¬ b.val.toNat < c.val.toNat := hbc
              show ¬ c.val.toNat < a.val.toNat
              omega
            rw [if_neg hab, if_neg hba] at h1
            rw [if_neg hbc, if_neg hcb] at h2
            rw [if_neg hnac, if_neg hnca]
            exact charListLe_trans as bs cs h1 h2

/-- `pyStrLe` is total. -/
theorem pyStrLe_total (a b : String) : pyStrLe a b = true ∨ pyStrLe b a = true :=
  charListLe_total a.data b.data

/-- `pyStrLe` is antisymmetric. -/
theorem pyStrLe_antisymm {a b : String} (h1 : pyStrLe a b = true)
    (h2 : pyStrLe b a = true) : a = b := by
  have h := charListLe_antisymm a.data b.data h1 h2
  cases a; cases b; exact congrArg String.mk h

/-- `pyStrLe` is transitive. -/
theorem pyStrLe_trans {a b c : String} (h1 : pyStrLe a b = true)
    (h2 : pyStrLe b c = true) : pyStrLe a c = true :=
  charListLe_trans a.data b.data c.data h1 h2

/-- The sort relation on signals is total. -/
theorem sigKeyLe_total (a b : PyVal) : sigKeyLe a b = true ∨ sigKeyLe b a = true := by
  simp only [sigKeyLe]
  by_cases h : (signalSortKey a).1 = (signalSortKey b).1
  · rw [if_pos (by simp only [beq_iff_eq]; exact h),
      if_pos (by simp only [beq_iff_eq]; exact h.symm)]
    exact pyStrLe_total _ _
  · rw [if_neg (by simp only [beq_iff_eq]; exact h),
      if_neg (by simp only [beq_iff_eq]; exact fun e => h e.symm)]
    exact pyStrLe_total _ _

/-- The sort relation on signals is transitive. -/
theorem sigKeyLe_trans {a b c : PyVal} (h1 : sigKeyLe a b = true)
    (h2 : sigKeyLe b c = true) : sigKeyLe a c = true := by
  simp only [sigKeyLe] at h1 h2 ⊢
  by_cases e1 : (signalSortKey a).1 = (signalSortKey b).1
  · rw [if_pos (by simp only [beq_iff_eq]; exact e1)] at h1
    by_cases e2 : (signalSortKey b).1 = (signalSortKey c).1
    · rw [if_pos (by simp only [beq_iff_eq]; exact e2)] at h2
      rw [if_pos (by simp only [beq_iff_eq]; exact e1.trans e2)]
      exact pyStrLe_trans h1 h2
    · rw [if_neg (by simp only [beq_iff_eq]; exact e2)] at h2
      rw [if_neg (by simp only [beq_iff_eq]; exact fun e => e2 (e1.symm.trans e))]
      rw [e1]
      exact h2
  · rw [if_neg (by simp only [beq_iff_eq]; exact e1)] at h1
    by_cases e2 : (signalSortKey b).1 = (signalSortKey c).1
    · rw [if_pos (by simp only [beq_iff_eq]; exact e2)] at h2
      rw [if_neg (by simp only [beq_iff_eq]; exact fun e => e1 (e.trans e2.symm))]
      rw [← e2]
      exact h1
    · rw [if_neg (by simp only [beq_iff_eq]; exact e2)] at h2
      by_cases e3 : (signalSortKey a).1 = (signalSortKey c).1
      · exact absurd (pyStrLe_antisymm h1 (by rw [e3]; exact h2)) e1
      · rw [if_neg (by simp only [beq_iff_eq]; exact e3)]
        exact pyStrLe_trans h1 h2

/-- With pairwise-distinct dedup keys, the sort order is antisymmetric on the
elements of the list. -/
theorem sigKeyLe_antisymm_on {l : List PyVal}
    (hnd : (l.map hashStr).Nodup) :
    ∀ a ∈ l, ∀ b ∈ l, sigKeyLe a b = true → sigKeyLe b a = true → a = b := by
  intro a ha b hb h1 h2
  simp only [sigKeyLe] at h1 h2
  by_cases e1 : (signalSortKey a).1 = (signalSortKey b).1
  · rw [if_pos (by simp only [beq_iff_eq]; exact e1)] at h1
    rw [if_pos (by simp only [beq_iff_eq]; exact e1.symm)] at h2
    have hh : (signalSortKey a).2 = (signalSortKey b).2 := pyStrLe_antisymm h1 h2
    have hh2 : hashStr a = hashStr b := hh
    exact List.inj_on_of_nodup_map hnd ha hb hh2
  · rw [if_neg (by simp only [beq_iff_eq]; exact e1)] at h1
    rw [if_neg (by simp only [beq_iff_eq]; exact fun e => e1 e.symm)] at h2
    exact absurd (pyStrLe_antisymm h1 h2) e1

/-- Insertion preserves sortedness for a total transitive comparator. -/
theorem ordIns_pairwise {le : α → α → Bool}
    (htot : ∀ a b : α, le a b = true ∨ le b a = true)
    (htr : ∀ {a b c : α}, le a b = true → le b c = true → le a c = true)
    (a : α) : ∀ (l : List α), l.Pairwise (fun x y => le x y = true) →
      (ordIns le a l).Pairwise (fun x y => le x y = true)
  | [], _ => by simp [ordIns]
  | b :: l, hp => by
    rw [List.pairwise_cons] at hp
    obtain ⟨hb, hl⟩ := hp
    unfold ordIns
    by_cases hab : le a b = true
    · rw [if_pos hab]
      refine List.Pairwise.cons ?_ (List.Pairwise.cons hb hl)
      intro y hy
      rcases List.mem_cons.1 hy with rfl | hy'
      · exact hab
      · exact htr hab (hb y hy')
    · rw [if_neg hab]
      have hba : le b a = true := (htot a b).resolve_left hab
      refine List.Pairwise.cons ?_ (ordIns_pairwise htot htr a l hl)
      intro y hy
      have hy2 : y ∈ a :: l := (ordIns_perm le a l).mem_iff.1 hy
      rcases List.mem_cons.1 hy2 with rfl | hy''
      · exact hba
      · exact hb y hy''

/-- `stableSort` sorts (pairwise `le`) for a total transitive comparator. -/
theorem stableSort_pairwise {le : α → α → Bool}
    (htot : ∀ a b : α, le a b = true ∨ le b a = true)
    (htr : ∀ {a b c : α}, le a b = true → le b c = true → le a c = true) :
    ∀ (l : List α), (stableSort le l).Pairwise (fun x y => le x y = true)
  | [] => List.Pairwise.nil
  | a :: l => by
    unfold stableSort
    exact ordIns_pairwise htot htr a _ (stableSort_pairwise htot htr l)

/-- Two sorted lists that are permutations of each other are equal, given
antisymmetry on the elements actually present. -/
theorem sorted_perm_eq {le : α → α → Bool} :
    ∀ {l1 l2 : List α}, l1.Perm l2 →
      l1.Pairwise (fun x y => le x y = true) →
      l2.Pairwise (fun x y => le x y = true) →
      (∀ a ∈ l1, ∀ b ∈ l1, le a b = true → le b a = true → a = b) →
      l1 = l2
  | [], _, hp, _, _, _ => ((List.Perm.eq_nil hp.symm).symm : _)
  | a :: t1, l2, hp, hp1, hp2, hanti => by
    cases l2 with
    | nil => exact absurd (List.Perm.eq_nil hp) (by simp)
    | cons b t2 =>
      rw [List.pairwise_cons] at hp1 hp2
      obtain ⟨ha1, hp1a⟩ := hp1
      obtain ⟨hb2, hp2a⟩ := hp2
      have hab : a = b := by
        have hain : a ∈ b :: t2 := hp.mem_iff.1 (List.mem_cons_self a t1)
        have hbin : b ∈ a :: t1 := hp.mem_iff.2 (List.mem_cons_self b t2)
        rcases List.mem_cons.1 hain with h' | h'
        · exact h'
        · rcases List.mem_cons.1 hbin with h'' | h''
          · exact h''.symm
          · exact hanti a (List.mem_cons_self a t1) b
              (List.mem_cons.2 (Or.inr h'')) (ha1 b h'') (hb2 a h')
      subst hab
      have hp' : t1.Perm t2 := hp.cons_inv
      rw [sorted_perm_eq hp' hp1a hp2a
        (fun x hx y hy => hanti x (List.mem_cons_of_mem a hx) y
          (List.mem_cons_of_mem a hy))]

/-! ### The dedup map under pairwise-distinct context hashes -/

/-- `dedupByHash` is the fold of `dedupStep`. -/
theorem dedupByHash_eq_foldl (signals : List PyVal) :
    dedupByHash signals = signals.foldl dedupStep [] := rfl

/-- With pairwise-distinct hash keys the dedup fold appends exactly the
non-empty-hash signals, in order. -/
theorem dedupFold_eq_filter :
    ∀ (l : List PyVal) (acc : List (String × PyVal)),
      (l.map hashStr).Nodup →
      (∀ s ∈ l, acc.any (fun p => p.1 == hashStr s) = false) →
      l.foldl dedupStep acc =
        acc ++ (l.filter (fun s => !(hashStr s).isEmpty)).map
          (fun s => (hashStr s, s))
  | [], acc, _, _ => by simp
  | s :: rest, acc, hnd, hdis => by
    rw [List.foldl_cons]
    simp only [List.map_cons, List.nodup_cons] at hnd
    by_cases he : (hashStr s).isEmpty = true
    · have hstep : dedupStep acc s = acc := by
        unfold dedupStep
        rw [if_neg (by simp [he])]
      rw [hstep, List.filter_cons_of_neg (by simp [he])]
      exact dedupFold_eq_filter rest acc hnd.2
        (fun t ht => hdis t (List.mem_cons_of_mem s ht))
    · have hstep : dedupStep acc s = acc ++ [(hashStr s, s)] := by
        unfold dedupStep
        rw [if_pos]
        simp only [Bool.and_eq_true, Bool.not_eq_true']
        exact ⟨by simpa using he, hdis s (List.mem_cons_self s rest)⟩
      rw [hstep, List.filter_cons_of_pos (by simpa using he), List.map_cons]
      rw [dedupFold_eq_filter rest (acc ++ [(hashStr s, s)]) hnd.2 ?_]
      · simp
      · intro t ht
        rw [List.any_append]
        simp only [Bool.or_eq_false_iff]
        refine ⟨hdis t (List.mem_cons_of_mem s ht), ?_⟩
        simp only [List.any_cons, List.any_nil, Bool.or_false]
        simp only [beq_eq_false_iff_ne, ne_eq]
        intro hEq
        exact hnd.1 (by rw [hEq]; exact List.mem_map_of_mem hashStr ht)

/-- Under pairwise-distinct context hashes, dedup keeps exactly the signals
with a non-empty hash, first occurrence order preserved. -/
theorem dedupByHash_eq_filter {signals : List PyVal}
    (hnd : (signals.map hashStr).Nodup) :
    dedupByHash signals =
      (signals.filter (fun s => !(hashStr s).isEmpty)).map
        (fun s => (hashStr s, s)) := by
  rw [dedupByHash_eq_foldl, dedupFold_eq_filter signals [] hnd (by simp)]
  simp

/-- Under pairwise-distinct context hashes, the kept set is the sorted
filter of the non-empty-hash signals. -/
theorem keptSignals_eq_sort_filter {signals : List PyVal}
    (hnd : (signals.map hashStr).Nodup) :
    keptSignals signals =
      stableSort sigKeyLe (signals.filter (fun s => !(hashStr s).isEmpty)) := by
  unfold keptSignals
  rw [dedupByHash_eq_filter hnd, List.map_map]
  congr 1
  induction List.filter (fun s => !(hashStr s).isEmpty) signals with
  | nil => rfl
  | cons x xs ih => simp [ih, Function.comp]

/-! ### Cleanliness extracted from a successful hygiene walk -/

/-- Pushed items of a clean dict scan: exactly the interleaved keys and
values. -/
theorem scanKVs_ok_some : ∀ {kvs : List (PyVal × PyVal)} {pushed : List PyVal},
    scanKVs kvs = .ok (some pushed) →
    pushed = kvs.flatMap (fun kv => [kv.1, kv.2])
  | [], pushed, h => by
    simp only [scanKVs, Except.ok.injEq, Option.some.injEq] at h
    simp [← h]
  | (k, v) :: rest, pushed, h => by
    simp only [scanKVs, bind, Except.bind, pure, Except.pure] at h
    cases hfk : isFiniteNumber k with
    | error e => rw [hfk] at h; exact Except.noConfusion h
    | ok fk =>
      rw [hfk] at h
      dsimp only [] at h
      cases fk with
      | false => simp at h
      | true =>
        rw [if_neg (by simp)] at h
        cases hfv : isFiniteNumber v with
        | error e => rw [hfv] at h; exact Except.noConfusion h
        | ok fv =>
          rw [hfv] at h
          dsimp only [] at h
          cases fv with
          | false => simp at h
          | true =>
            rw [if_neg (by simp)] at h
            cases hsr : scanKVs rest with
            | error e => rw [hsr] at h; exact Except.noConfusion h
            | ok tail =>
              rw [hsr] at h
              dsimp only [] at h
              cases tail with
              | none => simp at h
              | some l =>
                simp at h
                rw [← h, scanKVs_ok_some hsr]
                rfl

/-- Pushed items of a clean list scan: the elements themselves. -/
theorem scanList_ok_some : ∀ {xs : List PyVal} {pushed : List PyVal},
    scanList xs = .ok (some pushed) → pushed = xs
  | [], pushed, h => by
    simp only [scanList, Except.ok.injEq, Option.some.injEq] at h
    simp [← h]
  | v :: rest, pushed, h => by
    simp only [scanList, bind, Except.bind, pure, Except.pure] at h
    cases hfv : isFiniteNumber v with
    | error e => rw [hfv] at h; exact Except.noConfusion h
    | ok fv =>
      rw [hfv] at h
      dsimp only [] at h
      cases fv with
      | false => simp at h
      | true =>
        rw [if_neg (by simp)] at h
        cases hsr : scanList rest with
        | error e => rw [hsr] at h; exact Except.noConfusion h
        | ok tail =>
          rw [hsr] at h
          dsimp only [] at h
          cases tail with
          | none => simp at h
          | some l =>
            simp at h
            rw [← h, scanList_ok_some hsr]

/-- Interleaved keys and values carry the same int bound as the entry list. -/
theorem smallIntsList_flatPairs : ∀ (kvs : List (PyVal × PyVal)),
    smallIntsList (kvs.flatMap (fun kv => [kv.1, kv.2])) = smallIntsKVs kvs
  | [] => rfl
  | (k, v) :: rest => by
    show smallIntsList (k :: v :: rest.flatMap (fun kv => [kv.1, kv.2])) =
      smallIntsKVs ((k, v) :: rest)
    simp only [smallIntsList, smallIntsKVs, smallIntsList_flatPairs rest,
      Bool.and_assoc]

/-- Interleaved keys and values carry the same non-finite flag. -/
theorem hasNonFiniteList_flatPairs : ∀ (kvs : List (PyVal × PyVal)),
    hasNonFiniteList (kvs.flatMap (fun kv => [kv.1, kv.2])) = hasNonFiniteKVs kvs
  | [] => rfl
  | (k, v) :: rest => by
    show hasNonFiniteList (k :: v :: rest.flatMap (fun kv => [kv.1, kv.2])) =
      hasNonFiniteKVs ((k, v) :: rest)
    simp only [hasNonFiniteList, hasNonFiniteKVs, hasNonFiniteList_flatPairs rest,
      Bool.or_assoc]

/-- A hygiene walk that finishes clean certifies every stacked value: all
ints below the float bound and no non-finite float anywhere. -/
theorem walkLoop_ok_none : ∀ (fuel : Nat) (stack : List PyVal),
    walkLoop stack fuel = .ok Option.none →
    smallIntsList stack = true ∧ hasNonFiniteList stack = false := by
  intro fuel
  induction fuel with
  | zero =>
    intro stack h
    cases stack with
    | nil => exact ⟨rfl, rfl⟩
    | cons x rest => simp [walkLoop, RC_PAYLOAD_TOO_LARGE] at h
  | succ fuel ih =>
    intro stack h
    cases stack with
    | nil => exact ⟨rfl, rfl⟩
    | cons cur rest =>
      match cur with
      | .dict kvs =>
        cases hsc : scanKVs kvs with
        | error e =>
          rw [show walkLoop (PyVal.dict kvs :: rest) (fuel + 1) = .error e from by
            simp [walkLoop, hsc]] at h
          exact Except.noConfusion h
        | ok o =>
          cases o with
          | none =>
            rw [show walkLoop (PyVal.dict kvs :: rest) (fuel + 1) =
                .ok (some RC_BAD_NUMBER) from by simp [walkLoop, hsc]] at h
            simp [RC_BAD_NUMBER] at h
          | some pushed =>
            rw [show walkLoop (PyVal.dict kvs :: rest) (fuel + 1) =
                walkLoop (pushed.reverse ++ rest) fuel from by
              simp [walkLoop, hsc]] at h
            obtain ⟨hsm, hnf⟩ := ih _ h
            have hpe := scanKVs_ok_some hsc
            subst hpe
            rw [smallIntsList_append, smallIntsList_reverse,
              smallIntsList_flatPairs] at hsm
            rw [hasNonFiniteList_append, hasNonFiniteList_reverse,
              hasNonFiniteList_flatPairs] at hnf
            simp only [Bool.and_eq_true] at hsm
            simp only [Bool.or_eq_false_iff] at hnf
            exact ⟨by simp [smallIntsList, smallInts, hsm.1, hsm.2],
              by simp [hasNonFiniteList, hasNonFinite, hnf.1, hnf.2]⟩
      | .list xs =>
        cases hsc : scanList xs with
        | error e =>
          rw [show walkLoop (PyVal.list xs :: rest) (fuel + 1) = .error e from by
            simp [walkLoop, hsc]] at h
          exact Except.noConfusion h
        | ok o =>
          cases o with
          | none =>
            rw [show walkLoop (PyVal.list xs :: rest) (fuel + 1) =
                .ok (some RC_BAD_NUMBER) from by simp [walkLoop, hsc]] at h
            simp [RC_BAD_NUMBER] at h
          | some pushed =>
            rw [show walkLoop (PyVal.list xs :: rest) (fuel + 1) =
                walkLoop (pushed.reverse ++ rest) fuel from by
              simp [walkLoop, hsc]] at h
            obtain ⟨hsm, hnf⟩ := ih _ h
            have hpe := scanList_ok_some hsc
            subst hpe
            rw [smallIntsList_append, smallIntsList_reverse] at hsm
            rw [hasNonFiniteList_append, hasNonFiniteList_reverse] at hnf
            simp only [Bool.and_eq_true] at hsm
            simp only [Bool.or_eq_false_iff] at hnf
            exact ⟨by simp [smallIntsList, smallInts, hsm.1, hsm.2],
              by simp [hasNonFiniteList, hasNonFinite, hnf.1, hnf.2]⟩
      | .none =>
        rw [show walkLoop (PyVal.none :: rest) (fuel + 1) =
            walkLoop rest fuel from by simp [walkLoop, isFiniteNumber]] at h
        obtain ⟨hsm, hnf⟩ := ih rest h
        exact ⟨by simp [smallIntsList, smallInts, hsm],
          by simp [hasNonFiniteList, hasNonFinite, hnf]⟩
      | .bool b =>
        rw [show walkLoop (PyVal.bool b :: rest) (fuel + 1) =
            walkLoop rest fuel from by simp [walkLoop, isFiniteNumber]] at h
        obtain ⟨hsm, hnf⟩ := ih rest h
        exact ⟨by simp [smallIntsList, smallInts, hsm],
          by simp [hasNonFiniteList, hasNonFinite, hnf]⟩
      | .str t =>
        rw [show walkLoop (PyVal.str t :: rest) (fuel + 1) =
            walkLoop rest fuel from by simp [walkLoop, isFiniteNumber]] at h
        obtain ⟨hsm, hnf⟩ := ih rest h
        exact ⟨by simp [smallIntsList, smallInts, hsm],
          by simp [hasNonFiniteList, hasNonFinite, hnf]⟩
      | .int n =>
        by_cases hov : intFloatOverflows n = true
        · rw [show walkLoop (PyVal.int n :: rest) (fuel + 1) =
              .error .overflowError from by
            simp [walkLoop, isFiniteNumber, hov]] at h
          exact Except.noConfusion h
        · rw [show walkLoop (PyVal.int n :: rest) (fuel + 1) =
              walkLoop rest fuel from by
            simp [walkLoop, isFiniteNumber, hov]] at h
          obtain ⟨hsm, hnf⟩ := ih rest h
          exact ⟨by simp [smallIntsList, smallInts, hov, hsm],
            by simp [hasNonFiniteList, hasNonFinite, hnf]⟩
      | .float f =>
        cases f with
        | finite q =>
          rw [show walkLoop (PyVal.float (.finite q) :: rest) (fuel + 1) =
              walkLoop rest fuel from by simp [walkLoop, isFiniteNumber]] at h
          obtain ⟨hsm, hnf⟩ := ih rest h
          exact ⟨by simp [smallIntsList, smallInts, hsm],
            by simp [hasNonFiniteList, hasNonFinite, hnf]⟩
        | nan =>
          rw [show walkLoop (PyVal.float .nan :: rest) (fuel + 1) =
              .ok (some RC_BAD_NUMBER) from by
            simp [walkLoop, isFiniteNumber]] at h
          simp [RC_BAD_NUMBER] at h
        | inf =>
          rw [show walkLoop (PyVal.float .inf :: rest) (fuel + 1) =
              .ok (some RC_BAD_NUMBER) from by
            simp [walkLoop, isFiniteNumber]] at h
          simp [RC_BAD_NUMBER] at h
        | ninf =>
          rw [show walkLoop (PyVal.float .ninf :: rest) (fuel + 1) =
              .ok (some RC_BAD_NUMBER) from by
            simp [walkLoop, isFiniteNumber]] at h
          simp [RC_BAD_NUMBER] at h

/-- A clean whole-tree hygiene walk certifies the whole value. -/
theorem walkCheckFinite_ok_none {obj : PyVal} {cap : Nat}
    (h : walkCheckFinite obj cap = .ok Option.none) :
    smallInts obj = true ∧ hasNonFinite obj = false := by
  obtain ⟨hsm, hnf⟩ := walkLoop_ok_none cap [obj] h
  simp only [smallIntsList, Bool.and_eq_true] at hsm
  simp only [hasNonFiniteList, Bool.or_eq_false_iff] at hnf
  exact ⟨hsm.1, hnf.1⟩

/-! ### Locating values inside dicts and lists -/

/-- A found key/value pair is an entry of the dict. -/
theorem getKV_mem {k : String} : ∀ {kvs : List (PyVal × PyVal)} {v : PyVal},
    getKV kvs k = some v → ∃ key, (key, v) ∈ kvs := by
  intro kvs
  induction kvs with
  | nil => intro v h; simp [getKV] at h
  | cons kv rest ih =>
    intro v h
    obtain ⟨key, w⟩ := kv
    match key with
    | .str t =>
      simp only [getKV] at h
      by_cases hs : t = k
      · rw [if_pos hs] at h
        simp only [Option.some.injEq] at h
        subst h
        exact ⟨.str t, List.mem_cons_self _ _⟩
      · rw [if_neg hs] at h
        obtain ⟨key2, hm⟩ := ih h
        exact ⟨key2, List.mem_cons_of_mem _ hm⟩
    | .none =>
      obtain ⟨key2, hm⟩ := ih (by simpa [getKV] using h)
      exact ⟨key2, List.mem_cons_of_mem _ hm⟩
    | .bool b =>
      obtain ⟨key2, hm⟩ := ih (by simpa [getKV] using h)
      exact ⟨key2, List.mem_cons_of_mem _ hm⟩
    | .int n =>
      obtain ⟨key2, hm⟩ := ih (by simpa [getKV] using h)
      exact ⟨key2, List.mem_cons_of_mem _ hm⟩
    | .float f =>
      obtain ⟨key2, hm⟩ := ih (by simpa [getKV] using h)
      exact ⟨key2, List.mem_cons_of_mem _ hm⟩
    | .list xs =>
      obtain ⟨key2, hm⟩ := ih (by simpa [getKV] using h)
      exact ⟨key2, List.mem_cons_of_mem _ hm⟩
    | .dict d =>
      obtain ⟨key2, hm⟩ := ih (by simpa [getKV] using h)
      exact ⟨key2, List.mem_cons_of_mem _ hm⟩

/-- A non-`None` `.get` default fill pins the lookup. -/
theorem getKV_of_getD_some {kvs : List (PyVal × PyVal)} {k : String} {v : PyVal}
    (h : (getKV kvs k).getD .none = v) (hv : ¬ v = PyVal.none) :
    getKV kvs k = some v := by
  cases hget : getKV kvs k with
  | none =>
    rw [hget] at h
    simp only [Option.getD_none] at h
    exact absurd h.symm hv
  | some w =>
    rw [hget] at h
    simp only [Option.getD_some] at h
    rw [h]

/-- Int bound restricted to one list element. -/
theorem smallIntsList_mem {xs : List PyVal} {s : PyVal}
    (h : smallIntsList xs = true) (hm : s ∈ xs) : smallInts s = true := by
  induction xs with
  | nil => simp at hm
  | cons x rest ih =>
    simp only [smallIntsList, Bool.and_eq_true] at h
    rcases List.mem_cons.1 hm with rfl | hm2
    · exact h.1
    · exact ih h.2 hm2

/-- Non-finite-free restricted to one list element. -/
theorem hasNonFiniteList_mem {xs : List PyVal} {s : PyVal}
    (h : hasNonFiniteList xs = false) (hm : s ∈ xs) : hasNonFinite s = false := by
  induction xs with
  | nil => simp at hm
  | cons x rest ih =>
    simp only [hasNonFiniteList, Bool.or_eq_false_iff] at h
    rcases List.mem_cons.1 hm with rfl | hm2
    · exact h.1
    · exact ih h.2 hm2

/-- Int bound restricted to one dict value. -/
theorem smallIntsKVs_mem {kvs : List (PyVal × PyVal)} {key v : PyVal}
    (h : smallIntsKVs kvs = true) (hm : (key, v) ∈ kvs) : smallInts v = true := by
  induction kvs with
  | nil => simp at hm
  | cons kv rest ih =>
    obtain ⟨k0, v0⟩ := kv
    simp only [smallIntsKVs, Bool.and_eq_true] at h
    rcases List.mem_cons.1 hm with heq | hm2
    · injection heq with e1 e2
      subst e2
      exact h.1.2
    · exact ih h.2 hm2

/-- Non-finite-free restricted to one dict value. -/
theorem hasNonFiniteKVs_mem {kvs : List (PyVal × PyVal)} {key v : PyVal}
    (h : hasNonFiniteKVs kvs = false) (hm : (key, v) ∈ kvs) :
    hasNonFinite v = false := by
  induction kvs with
  | nil => simp at hm
  | cons kv rest ih =>
    obtain ⟨k0, v0⟩ := kv
    simp only [hasNonFiniteKVs, Bool.or_eq_false_iff] at h
    rcases List.mem_cons.1 hm with heq | hm2
    · injection heq with e1 e2
      subst e2
      exact h.1.2
    · exact ih h.2 hm2

/-- Every signal of a successfully parsed request is walk-clean: ints below
the float bound and no non-finite float anywhere inside it. -/
theorem from_dict_signals_clean {r : PyVal} {q : DQSNV3Request}
    (h : from_dict r = .ok q) :
    ∀ s ∈ q.signals, smallInts s = true ∧ hasNonFinite s = false := by
  obtain ⟨kvs, sigs, compS, ridS, canonical, hr, -, -, -, -, -, -, hsigs, -, -,
    -, hwalk, -, -, -, -, hqs⟩ := from_dict_ok_inv h
  subst hr
  obtain ⟨hsm, hnf⟩ := walkCheckFinite_ok_none hwalk
  have hget := getKV_of_getD_list hsigs
  obtain ⟨key, hmem⟩ := getKV_mem hget
  have hsmS : smallInts (.list sigs) = true :=
    smallIntsKVs_mem (by simpa [smallInts] using hsm) hmem
  have hnfS : hasNonFinite (.list sigs) = false :=
    hasNonFiniteKVs_mem (by simpa [hasNonFinite] using hnf) hmem
  rw [hqs]
  intro s hs
  exact ⟨smallIntsList_mem (by simpa [smallInts] using hsmS) hs,
    hasNonFiniteList_mem (by simpa [hasNonFinite] using hnfS) hs⟩

/-! ### Per-signal re-validation on clean values -/

mutual

/-- On a clean value the recursive hygiene walk reports `true`. -/
theorem walkFiniteRec_clean : ∀ (v : PyVal), smallInts v = true →
    hasNonFinite v = false → walkFiniteRec v = .ok true
  | .none, _, _ => rfl
  | .bool _, _, _ => rfl
  | .str _, _, _ => rfl
  | .int n, hsm, _ => by
    have hov : intFloatOverflows n = false := by simpa [smallInts] using hsm
    simp [walkFiniteRec, hov]
  | .float (.finite q), _, _ => rfl
  | .float .nan, _, hnf => by simp [hasNonFinite] at hnf
  | .float .inf, _, hnf => by simp [hasNonFinite] at hnf
  | .float .ninf, _, hnf => by simp [hasNonFinite] at hnf
  | .list xs, hsm, hnf => by
    have h := walkFiniteRecList_clean xs (by simpa [smallInts] using hsm)
      (by simpa [hasNonFinite] using hnf)
    simpa [walkFiniteRec] using h
  | .dict kvs, hsm, hnf => by
    have h := walkFiniteRecKVs_clean kvs (by simpa [smallInts] using hsm)
      (by simpa [hasNonFinite] using hnf)
    simpa [walkFiniteRec] using h

/-- Clean dict entries walk to `true`. -/
theorem walkFiniteRecKVs_clean : ∀ (kvs : List (PyVal × PyVal)),
    smallIntsKVs kvs = true → hasNonFiniteKVs kvs = false →
    walkFiniteRecKVs kvs = .ok true
  | [], _, _ => rfl
  | (k, v) :: rest, hsm, hnf => by
    simp only [smallIntsKVs, Bool.and_eq_true] at hsm
    simp only [hasNonFiniteKVs, Bool.or_eq_false_iff] at hnf
    have hv := walkFiniteRec_clean v hsm.1.2 hnf.1.2
    have hrest := walkFiniteRecKVs_clean rest hsm.2 hnf.2
    simp [walkFiniteRecKVs, hv, hrest]

/-- Clean list elements walk to `true`. -/
theorem walkFiniteRecList_clean : ∀ (xs : List PyVal),
    smallIntsList xs = true → hasNonFiniteList xs = false →
    walkFiniteRecList xs = .ok true
  | [], _, _ => rfl
  | v :: rest, hsm, hnf => by
    simp only [smallIntsList, Bool.and_eq_true] at hsm
    simp only [hasNonFiniteList, Bool.or_eq_false_iff] at hnf
    have hv := walkFiniteRec_clean v hsm.1 hnf.1
    have hrest := walkFiniteRecList_clean rest hsm.2 hnf.2
    simp [walkFiniteRecList, hv, hrest]

end

/-- With a finite score, the validation tail can only accept or report
`SIGNAL_INVALID`. -/
theorem validateScoreTail_true_cases (q : PyRat) (tier : PyVal)
    (kvs : List (PyVal × PyVal)) :
    validateScoreTail q true tier kvs = .ok Option.none ∨
    validateScoreTail q true tier kvs = .ok (some RC_SIGNAL_INVALID) := by
  unfold validateScoreTail
  rw [if_neg (by simp)]
  repeat' split
  all_goals simp

/-- On a clean signal value the per-signal re-validator either accepts or
reports exactly `SIGNAL_INVALID` (never `BAD_NUMBER`, never an exception). -/
theorem validateUpstreamSignal_clean : ∀ {s : PyVal}, smallInts s = true →
    hasNonFinite s = false →
    validateUpstreamSignal s = .ok Option.none ∨
    validateUpstreamSignal s = .ok (some RC_SIGNAL_INVALID)
  | .none, _, _ => Or.inr rfl
  | .bool _, _, _ => Or.inr rfl
  | .int _, _, _ => Or.inr rfl
  | .float _, _, _ => Or.inr rfl
  | .str _, _, _ => Or.inr rfl
  | .list _, _, _ => Or.inr rfl
  | .dict kvs, hsm, hnf => by
    have hsmK : smallIntsKVs kvs = true := by simpa [smallInts] using hsm
    have hnfK : hasNonFiniteKVs kvs = false := by simpa [hasNonFinite] using hnf
    have hwf : walkFiniteRec (.dict kvs) = .ok true :=
      walkFiniteRec_clean (.dict kvs) hsm hnf
    simp only [validateUpstreamSignal]
    rw [hwf]
    dsimp only []
    split_ifs with h1 h2 h3 h4 h5 h6
    · right; rfl
    · right; rfl
    · right; rfl
    · right; rfl
    · right; rfl
    · right; rfl
    · cases hrisk : (getKV kvs "risk").getD PyVal.none with
      | dict riskKvs =>
        dsimp only []
        have hriskGet : getKV kvs "risk" = some (.dict riskKvs) :=
          getKV_of_getD_some hrisk (by intro hc; exact PyVal.noConfusion hc)
        obtain ⟨rk, hrmem⟩ := getKV_mem hriskGet
        have hsmR : smallIntsKVs riskKvs = true := by
          simpa [smallInts] using smallIntsKVs_mem hsmK hrmem
        have hnfR : hasNonFiniteKVs riskKvs = false := by
          simpa [hasNonFinite] using hasNonFiniteKVs_mem hnfK hrmem
        cases hscore : (getKV riskKvs "score").getD PyVal.none with
        | bool b => right; rfl
        | int n =>
          dsimp only []
          have hscGet : getKV riskKvs "score" = some (.int n) :=
            getKV_of_getD_some hscore (by intro hc; exact PyVal.noConfusion hc)
          obtain ⟨sk, hsmem⟩ := getKV_mem hscGet
          have hov : intFloatOverflows n = false := by
            simpa [smallInts] using smallIntsKVs_mem hsmR hsmem
          rw [if_neg (by simp [hov])]
          exact validateScoreTail_true_cases _ _ _
        | float f =>
          cases f with
          | finite qq =>
            exact validateScoreTail_true_cases _ _ _
          | nan =>
            have hscGet : getKV riskKvs "score" = some (.float .nan) :=
              getKV_of_getD_some hscore (by intro hc; exact PyVal.noConfusion hc)
            obtain ⟨sk, hsmem⟩ := getKV_mem hscGet
            have hbad := hasNonFiniteKVs_mem hnfR hsmem
            simp [hasNonFinite] at hbad
          | inf =>
            have hscGet : getKV riskKvs "score" = some (.float .inf) :=
              getKV_of_getD_some hscore (by intro hc; exact PyVal.noConfusion hc)
            obtain ⟨sk, hsmem⟩ := getKV_mem hscGet
            have hbad := hasNonFiniteKVs_mem hnfR hsmem
            simp [hasNonFinite] at hbad
          | ninf =>
            have hscGet : getKV riskKvs "score" = some (.float .ninf) :=
              getKV_of_getD_some hscore (by intro hc; exact PyVal.noConfusion hc)
            obtain ⟨sk, hsmem⟩ := getKV_mem hscGet
            have hbad := hasNonFiniteKVs_mem hnfR hsmem
            simp [hasNonFinite] at hbad
        | none => right; rfl
        | str t => right; rfl
        | list xs => right; rfl
        | dict d => right; rfl
      | none => right; rfl
      | bool b => right; rfl
      | int n => right; rfl
      | float f => right; rfl
      | str t => right; rfl
      | list xs => right; rfl

/-- An all-valid signal list passes the validation loop. -/
theorem firstInvalid_of_valid : ∀ {sigs : List PyVal},
    (∀ s ∈ sigs, validateUpstreamSignal s = .ok Option.none) →
    firstInvalid sigs = .ok Option.none
  | [], _ => rfl
  | s :: rest, h => by
    unfold firstInvalid
    rw [h s (List.mem_cons_self s rest)]
    exact firstInvalid_of_valid (fun t ht => h t (List.mem_cons_of_mem s ht))

/-- If every signal either passes or reports `SIGNAL_INVALID` and at least
one does not pass, the loop reports `SIGNAL_INVALID`. -/
theorem firstInvalid_of_invalid : ∀ {sigs : List PyVal},
    (∀ s ∈ sigs, validateUpstreamSignal s = .ok Option.none ∨
      validateUpstreamSignal s = .ok (some RC_SIGNAL_INVALID)) →
    (¬ ∀ s ∈ sigs, validateUpstreamSignal s = .ok Option.none) →
    firstInvalid sigs = .ok (some RC_SIGNAL_INVALID)
  | [], _, hne => absurd (by simp) hne
  | s :: rest, hdi, hne => by
    rcases hdi s (List.mem_cons_self s rest) with hv | hv
    · unfold firstInvalid
      rw [hv]
      show firstInvalid rest = .ok (some RC_SIGNAL_INVALID)
      apply firstInvalid_of_invalid (fun t ht => hdi t (List.mem_cons_of_mem s ht))
      intro hall
      exact hne (fun t ht => by
        rcases List.mem_cons.1 ht with rfl | ht2
        · exact hv
        · exact hall t ht2)
    · unfold firstInvalid
      rw [hv]

/-! ### Order-insensitivity of the success pipeline -/

/-- The success tail depends on the signal list only through its length, its
dedup count and its kept (deduplicated, sorted) set. -/
theorem evalSuccess_congr (rid : String) {sigs1 sigs2 : List PyVal}
    (hlen : sigs1.length = sigs2.length)
    (hdl : (dedupByHash sigs1).length = (dedupByHash sigs2).length)
    (hkept : keptSignals sigs1 = keptSignals sigs2) :
    evalSuccess rid sigs1 = evalSuccess rid sigs2 := by
  simp only [evalSuccess]
  rw [show stableSort sigKeyLe ((dedupByHash sigs1).map (·.2)) =
    keptSignals sigs1 from rfl]
  rw [show stableSort sigKeyLe ((dedupByHash sigs2).map (·.2)) =
    keptSignals sigs2 from rfl]
  rw [hlen, hdl, hkept]

/-- Permutations with pairwise-distinct context hashes have the same kept
set. -/
theorem keptSignals_perm_eq {sigs1 sigs2 : List PyVal} (hperm : sigs1.Perm sigs2)
    (hnd : (sigs1.map hashStr).Nodup) :
    keptSignals sigs1 = keptSignals sigs2 := by
  have hnd2 : (sigs2.map hashStr).Nodup := (hperm.map hashStr).nodup_iff.1 hnd
  rw [keptSignals_eq_sort_filter hnd, keptSignals_eq_sort_filter hnd2]
  have hf : (sigs1.filter (fun s => !(hashStr s).isEmpty)).Perm
      (sigs2.filter (fun s => !(hashStr s).isEmpty)) := hperm.filter _
  have hndf : ((sigs1.filter (fun s => !(hashStr s).isEmpty)).map hashStr).Nodup :=
    hnd.sublist ((List.filter_sublist sigs1).map hashStr)
  exact sorted_perm_eq
    ((stableSort_perm _ _).trans (hf.trans (stableSort_perm _ _).symm))
    (stableSort_pairwise sigKeyLe_total sigKeyLe_trans _)
    (stableSort_pairwise sigKeyLe_total sigKeyLe_trans _)
    (fun a ha b hb => sigKeyLe_antisymm_on hndf a ((stableSort_mem _ _ _).1 ha)
      b ((stableSort_mem _ _ _).1 hb))

/-- Permutations with pairwise-distinct context hashes have the same dedup
count. -/
theorem dedupByHash_length_perm {sigs1 sigs2 : List PyVal}
    (hperm : sigs1.Perm sigs2) (hnd : (sigs1.map hashStr).Nodup) :
    (dedupByHash sigs1).length = (dedupByHash sigs2).length := by
  have hnd2 : (sigs2.map hashStr).Nodup := (hperm.map hashStr).nodup_iff.1 hnd
  rw [dedupByHash_eq_filter hnd, dedupByHash_eq_filter hnd2]
  simp only [List.length_map]
  exact (hperm.filter _).length_eq

/-! ### Constraints never reach the output -/

/-- Dropping the `constraints` entries never changes another key's lookup. -/
theorem getKV_filter_constraints (kvs : List (PyVal × PyVal)) (k : String)
    (hk : ¬ k = "constraints") :
    getKV (kvs.filter (fun kv => !keyIs kv.1 "constraints")) k = getKV kvs k := by
  induction kvs with
  | nil => rfl
  | cons kv rest ih =>
    obtain ⟨key, v⟩ := kv
    rw [List.filter_cons]
    match key with
    | .str t =>
      by_cases ht : t = "constraints"
      · subst ht
        rw [if_neg (by simp [keyIs])]
        rw [ih]
        simp only [getKV]
        rw [if_neg (fun h => hk h.symm)]
      · rw [if_pos (by simp [keyIs, ht])]
        by_cases htk : t = k
        · simp only [getKV, if_pos htk]
        · simp only [getKV, if_neg htk]
          exact ih
    | .none =>
      rw [if_pos (by simp [keyIs])]
      simpa [getKV] using ih
    | .bool b =>
      rw [if_pos (by simp [keyIs])]
      simpa [getKV] using ih
    | .int n =>
      rw [if_pos (by simp [keyIs])]
      simpa [getKV] using ih
    | .float f =>
      rw [if_pos (by simp [keyIs])]
      simpa [getKV] using ih
    | .list xs =>
      rw [if_pos (by simp [keyIs])]
      simpa [getKV] using ih
    | .dict d =>
      rw [if_pos (by simp [keyIs])]
      simpa [getKV] using ih

/-- C3 (counterexample): `reqDupAF` and `reqDupWF` differ only in the order
of two signals that share the `context_hash` `"dup"` while differing in
other fields.  The code dedups by first occurrence *before* sorting, so the
kept representative depends on the input order: the response decisions are
`ALLOW` versus `ESCALATE` and the envelopes are not byte-identical,
refuting the claimed unconditional order independence. -/
theorem c3_order_dependence_counterexample :
    [sigDupAllow, sigDupWarn].Perm [sigDupWarn, sigDupAllow] ∧
    hashStr sigDupAllow = hashStr sigDupWarn ∧
    (evaluate reqDupAF).map (fun resp => resp.getStr "decision") =
      .ok (some (.str "ALLOW")) ∧
    (evaluate reqDupWF).map (fun resp => resp.getStr "decision") =
      .ok (some (.str "ESCALATE")) ∧
    evaluate reqDupAF ≠ evaluate reqDupWF :=
  ⟨List.Perm.swap sigDupWarn sigDupAllow [], by decide, by decide, by decide,
    by decide⟩

/-- C3 (amended): order independence holds exactly on the intended domain of
pairwise-distinct context hashes.  For any two successfully parsed requests
whose parsed views agree on `contract_version`, `component` and `request_id`
and whose signal lists are permutations of each other with pairwise-distinct
dedup keys `str(s.get("context_hash", ""))`, `evaluate` returns identical
envelopes.  (When hashes repeat, the first-wins dedup performed *before* the
sort makes the response order-dependent; see the counterexample.) -/
theorem c3_order_independence (r1 r2 : PyVal) (q1 q2 : DQSNV3Request)
    (h1 : from_dict r1 = .ok q1) (h2 : from_dict r2 = .ok q2)
    (hcv : q1.contract_version = q2.contract_version)
    (hcomp : q1.component = q2.component)
    (hrid : q1.request_id = q2.request_id)
    (hperm : q1.signals.Perm q2.signals)
    (hnd : (q1.signals.map hashStr).Nodup) :
    evaluate r1 = evaluate r2 := by
  have hc1 := from_dict_signals_clean h1
  have hc2 := from_dict_signals_clean h2
  have hdi1 : ∀ s ∈ q1.signals, validateUpstreamSignal s = .ok Option.none ∨
      validateUpstreamSignal s = .ok (some RC_SIGNAL_INVALID) :=
    fun s hs => validateUpstreamSignal_clean (hc1 s hs).1 (hc1 s hs).2
  have hdi2 : ∀ s ∈ q2.signals, validateUpstreamSignal s = .ok Option.none ∨
      validateUpstreamSignal s = .ok (some RC_SIGNAL_INVALID) :=
    fun s hs => validateUpstreamSignal_clean (hc2 s hs).1 (hc2 s hs).2
  have hlen : q1.signals.length = q2.signals.length := hperm.length_eq
  have hfi : firstInvalid q1.signals = firstInvalid q2.signals := by
    by_cases hall : ∀ s ∈ q1.signals, validateUpstreamSignal s = .ok Option.none
    · rw [firstInvalid_of_valid hall,
        firstInvalid_of_valid (fun s hs => hall s (hperm.mem_iff.2 hs))]
    · have hall2 : ¬ ∀ s ∈ q2.signals,
          validateUpstreamSignal s = .ok Option.none :=
        fun hs => hall (fun t ht => hs t (hperm.mem_iff.1 ht))
      rw [firstInvalid_of_invalid hdi1 hall, firstInvalid_of_invalid hdi2 hall2]
  have hkept : keptSignals q1.signals = keptSignals q2.signals :=
    keptSignals_perm_eq hperm hnd
  have hdl : (dedupByHash q1.signals).length = (dedupByHash q2.signals).length :=
    dedupByHash_length_perm hperm hnd
  have hes : evalSuccess q2.request_id q1.signals =
      evalSuccess q2.request_id q2.signals :=
    evalSuccess_congr q2.request_id hlen hdl hkept
  rw [evaluate_eq_parsed h1, evaluate_eq_parsed h2]
  unfold evalParsed
  rw [hcv, hcomp, hrid, hlen, hfi, hes]

/-- C3 (witness): the amended theorem applied to the distinct-hash pair
`reqOrd1`/`reqOrd2` (a `WARN` and an `ALLOW` signal in the two orders). -/
theorem c3_order_independence_witness :
    [sigWarn, sigAllow].Perm [sigAllow, sigWarn] ∧
    evaluate reqOrd1 = evaluate reqOrd2 :=
  ⟨List.Perm.swap sigAllow sigWarn [],
    c3_order_independence reqOrd1 reqOrd2
      ⟨3, "dqsn", "rq1", [sigWarn, sigAllow], ⟨true, 2500⟩⟩
      ⟨3, "dqsn", "rq1", [sigAllow, sigWarn], ⟨true, 2500⟩⟩
      (by decide) (by decide) rfl rfl rfl
      (List.Perm.swap sigAllow sigWarn []) (by decide)⟩

/-- C9: the parsed `constraints` (absent, empty, or any recognised
`max_latency_ms` value) never influence any field of the output envelope:
two requests that both parse successfully and agree after erasing their
top-level `constraints` entries receive identical responses from
`evaluate`. -/
theorem c9_constraints_ignored (r1 r2 : PyVal) (q1 q2 : DQSNV3Request)
    (h1 : from_dict r1 = .ok q1) (h2 : from_dict r2 = .ok q2)
    (he : eraseConstraints r1 = eraseConstraints r2) :
    evaluate r1 = evaluate r2 := by
  obtain ⟨kvs1, sigs1, compS1, ridS1, c1, hr1, -, -, hcomp1, hrid1, -, -,
    hsigs1, -, -, -, -, -, hqcv1, hqc1, hqr1, hqs1⟩ := from_dict_ok_inv h1
  obtain ⟨kvs2, sigs2, compS2, ridS2, c2, hr2, -, -, hcomp2, hrid2, -, -,
    hsigs2, -, -, -, -, -, hqcv2, hqc2, hqr2, hqs2⟩ := from_dict_ok_inv h2
  subst hr1
  subst hr2
  have hfe : kvs1.filter (fun kv => !keyIs kv.1 "constraints") =
      kvs2.filter (fun kv => !keyIs kv.1 "constraints") := by
    simpa [eraseConstraints] using he
  have hget : ∀ k : String, ¬ k = "constraints" →
      getKV kvs1 k = getKV kvs2 k := by
    intro k hk
    rw [← getKV_filter_constraints kvs1 k hk,
      ← getKV_filter_constraints kvs2 k hk, hfe]
  have hcv12 : q1.contract_version = q2.contract_version := by
    rw [hqcv1, hqcv2, hget "contract_version" (by decide)]
  have hcomp12 : q1.component = q2.component := by
    rw [hget "component" (by decide), hcomp2] at hcomp1
    injection hcomp1 with hcs
    rw [hqc1, hqc2, hcs]
  have hrid12 : q1.request_id = q2.request_id := by
    rw [hget "request_id" (by decide), hrid2] at hrid1
    injection hrid1 with hrs
    rw [hqr1, hqr2, hrs]
  have hsigs12 : q1.signals = q2.signals := by
    rw [hget "signals" (by decide), hsigs2] at hsigs1
    injection hsigs1 with hss
    rw [hqs1, hqs2, hss]
  rw [evaluate_eq_parsed h1, evaluate_eq_parsed h2]
  unfold evalParsed
  rw [hcv12, hcomp12, hrid12, hsigs12]

/-- C9 (witness): `reqNoCons` (no `constraints`) and `reqWithCons`
(`max_latency_ms: 100`) are distinct requests agreeing outside
`constraints`, and their responses coincide. -/
theorem c9_constraints_ignored_witness :
    eraseConstraints reqNoCons = eraseConstraints reqWithCons ∧
    reqNoCons ≠ reqWithCons ∧
    evaluate reqNoCons = evaluate reqWithCons :=
  ⟨by decide, by decide,
    c9_constraints_ignored reqNoCons reqWithCons
      ⟨3, "dqsn", "rq1", [sigWarn], ⟨true, 2500⟩⟩
      ⟨3, "dqsn", "rq1", [sigWarn], ⟨true, 100⟩⟩
      (by decide) (by decide) (by decide)⟩

/-- C7 (counterexample): `reqHugeNaN` satisfies every structural precheck
the claim lists — a mapping with only allowed top-level keys, an integer
`contract_version`, non-empty `component` and `request_id` strings, a
one-element signals list, canonical size within the payload limit, well
under the 50 000-node cap — and carries a NaN score, yet `evaluate` reports
`DQSN_ERROR_INVALID_REQUEST`, not `DQSN_ERROR_BAD_NUMBER`: the hygiene walk
reaches `float(10^400)` first, the `OverflowError` escapes `from_dict`, and
the outer `except Exception` handler remaps it. -/
theorem c7_huge_int_counterexample :
    reqHugeKvs.any (fun kv => !topLevelKeyOk kv.1) = false ∧
    pyIsInstInt ((getKV reqHugeKvs "contract_version").getD .none) = true ∧
    (getKV reqHugeKvs "component").getD .none = .str "dqsn" ∧
    (getKV reqHugeKvs "request_id").getD .none = .str "r7" ∧
    (getKV reqHugeKvs "signals").getD .none = .list [sigNaN] ∧
    encodedSizeBytes reqHugeNaN ≤ MAX_REQUEST_BYTES ∧
    pyNodes reqHugeNaN ≤ MAX_REQUEST_NODES ∧
    hasNonFinite reqHugeNaN = true ∧
    firstReason (evaluate reqHugeNaN) = some RC_INVALID_REQUEST ∧
    RC_INVALID_REQUEST ≠ RC_BAD_NUMBER :=
  ⟨by decide, by decide, by decide, by decide, by decide, by decide,
    by decide, by decide, by decide, by decide⟩

end DQSN
